import Mathlib

/-!
Verification of the sbml-diff comparison engine against its specification.

The Python sources under `src/sbml_diff/` are embedded shallowly: a
BeautifulSoup document becomes an explicit `Model` structure in which a
`none` field models an absent element (`select_one` returning `None`);
fallible navigation (calling a method on `None`, a failing lookup) is
embedded in `Except String`.
-/

namespace SbmlDiffProof

/-- A `speciesReference` element: its `species` attribute and its optional
`stoichiometry` attribute. -/
structure SpeciesRef where
  species : String
  stoichiometry : Option String := none
deriving DecidableEq, Repr

/-- A MathML `math` element, compared the way BeautifulSoup compares tags
(structural equality of the whole subtree): `body` stands for the subtree
and `cis` lists the stripped text of its `ci` descendants in document
order. -/
structure MathExpr where
  body : String
  cis : List String := []
deriving DecidableEq, Repr

/-- A `kineticLaw` element: its optional `math` child. -/
structure KineticLaw where
  math : Option MathExpr := none
deriving DecidableEq, Repr

/-- A `reaction` element.  A `none` child list models an absent
`listOfReactants`/`listOfModifiers`/`listOfProducts` element, and a `none`
`kineticLaw` an absent `kineticLaw` element. -/
structure Reaction where
  id : String
  name : Option String := none
  sboTerm : Option String := none
  fast : Option String := none
  reversible : Option String := none
  listOfReactants : Option (List SpeciesRef) := none
  listOfModifiers : Option (List String) := none
  listOfProducts : Option (List SpeciesRef) := none
  kineticLaw : Option KineticLaw := none
deriving DecidableEq, Repr

/-- A `species` element with the attributes the diff code reads. -/
structure Species where
  id : String
  compartment : String
  name : Option String := none
  boundaryCondition : Option String := none
  initialConcentration : Option String := none
deriving DecidableEq, Repr

/-- An assignment/rate/algebraic rule: its optional `variable` attribute,
the stripped text of the `ci` elements of its math, and its optional `math`
element. -/
structure SRule where
  varAttr : Option String := none
  cis : List String := []
  math : Option MathExpr := none
deriving DecidableEq, Repr

/-- An `event` element: optional `id` and `name` attributes and an optional
trigger expression. -/
structure Event where
  id : Option String := none
  name : Option String := none
  trigger : Option MathExpr := none
deriving DecidableEq, Repr

/-- The document root `sbml` element: its optional `xmlns` attribute. -/
structure SbmlRoot where
  xmlns : Option String := none
deriving DecidableEq, Repr

/-- One SBML document as navigated by the diff code.  A `none` field models
the corresponding element being absent from the document. -/
structure Model where
  sbml : Option SbmlRoot := none
  listOfSpecies : Option (List Species) := none
  listOfReactions : Option (List Reaction) := none
  listOfRules : Option (List SRule) := none
  listOfEvents : Option (List Event) := none
deriving DecidableEq, Repr

/-- `GenerateDot.assign_color` (src/sbml_diff/generate_dot.py, lines
252-263), the returned value.  The model set is carried as a
duplicate-free list of model indices.  `none` models Python falling off
the end of the function and returning `None`; `colors[i]?` models the
Python list indexing `self.colors[model_index]` (in range in every run
considered here). -/
def assignColor (numModels : Nat) (colors : List String) (modelSet : List Nat) : Option String :=
  if numModels = 1 then some "black"
  else if modelSet.length = 1 ∧ 1 < numModels then colors[modelSet.headD 0]?
  else if modelSet.length = numModels then some "grey"
  else if 0 < modelSet.length ∧ modelSet.length < numModels then some "black"
  else none

/-- `GenerateDot.assign_color` (src/sbml_diff/generate_dot.py, lines
249-250), the update of `self.differences_found`: the flag is set, never
cleared, when the model-set size differs from the number of models and the
call did not pass `ignore_difference`. -/
def assignColorFlag (numModels : Nat) (modelSet : List Nat) (ignoreDifference old : Bool) : Bool :=
  old || ((numModels != modelSet.length) && !ignoreDifference)

/-! Accessor functions (src/sbml_diff/accessor_functions.py). -/

/-- `get_species` (accessor_functions.py, lines 72-92): ids of all species
of the given compartment.  `select_one("listOfSpecies")` on a document
without one yields `None` and the subsequent `.select` raises, modelled as
`Except.error`. -/
def get_species (m : Model) (compartmentId : String) : Except String (List String) :=
  match m.listOfSpecies with
  | none => .error "AttributeError: listOfSpecies"
  | some sl => .ok ((sl.filter (fun s => s.compartment == compartmentId)).map (·.id))

/-- `get_species_compartment` (accessor_functions.py, lines 95-111): the
`compartment` attribute of the species with the given id; raises when the
document has no `listOfSpecies` or no such species. -/
def get_species_compartment (m : Model) (speciesId : String) : Except String String :=
  match m.listOfSpecies with
  | none => .error "AttributeError: listOfSpecies"
  | some sl =>
    match sl.find? (fun s => s.id == speciesId) with
    | none => .error "AttributeError: species not found"
    | some s => .ok s.compartment

/-- One step of the compartment inference in `get_reaction_details`
(accessor_functions.py, lines 162-165 and 184-187): an empty running value
is replaced by the species' compartment, and a disagreeing later species
resolves the value to `"NONE"`. -/
def updateCompartment (m : Model) (comp : String) (sid : String) : Except String String := do
  let c ← get_species_compartment m sid
  let comp1 := if comp = "" then c else comp
  pure (if comp1 ≠ c then "NONE" else comp1)

/-- The compartment inference of `get_reaction_details` folded over the
reactant species followed by the product species, starting from `""`. -/
def foldCompartment (m : Model) : String → List String → Except String String
  | comp, [] => .ok comp
  | comp, sid :: rest => do
    let comp' ← updateCompartment m comp sid
    foldCompartment m comp' rest

/-- The six return values of `get_reaction_details`.  `compartment = none`
models the Python `False` of the reaction-not-found early return; in
`rateLaw`, `none` models both that `False` and a present `kineticLaw` whose
`math` child is absent (callers only test falsiness). -/
structure ReactionDetails where
  reactants : List String
  products : List String
  compartment : Option String
  rateLaw : Option MathExpr
  reactantStoichs : List String
  productStoichs : List String
deriving DecidableEq, Repr

/-- The falsiness test `not reactants and not products and not compartment
and not rate_law and not rs and not ps` (sbml_diff.py, line 470) applied to
a `ReactionDetails` value. -/
def ReactionDetails.allFalsy (d : ReactionDetails) : Bool :=
  d.reactants.isEmpty && d.products.isEmpty
    && (match d.compartment with | none => true | some c => c == "")
    && d.rateLaw.isNone && d.reactantStoichs.isEmpty && d.productStoichs.isEmpty

/-- `get_reaction_details` (accessor_functions.py, lines 114-190): reactant
and product species with stoichiometries, the inferred compartment, and the
`math` element of the reaction's `kineticLaw`.  The final line
`reaction.select_one("kineticLaw").select_one("math")` raises when the
reaction has no `kineticLaw` element, modelled as `Except.error`. -/
def get_reaction_details (m : Model) (reactionId : String) : Except String ReactionDetails :=
  match m.listOfReactions with
  | none => .error "AttributeError: listOfReactions"
  | some rl =>
    match rl.find? (fun r => r.id == reactionId) with
    | none => .ok ⟨[], [], none, none, [], []⟩
    | some r => do
      let reactants := (r.listOfReactants.getD []).map (·.species)
      let reactantStoichs := (r.listOfReactants.getD []).map (fun sr => sr.stoichiometry.getD "")
      let products := (r.listOfProducts.getD []).map (·.species)
      let productStoichs := (r.listOfProducts.getD []).map (fun sr => sr.stoichiometry.getD "")
      let comp ← foldCompartment m "" (reactants ++ products)
      match r.kineticLaw with
      | none => .error "AttributeError: kineticLaw"
      | some kl => .ok ⟨reactants, products, some comp, kl.math, reactantStoichs, productStoichs⟩

/-- `get_reactions` (accessor_functions.py, lines 193-210): the id of every
reaction of the model; raises when the document has no `listOfReactions`. -/
def get_reactions (m : Model) : Except String (List String) :=
  match m.listOfReactions with
  | none => .error "AttributeError: listOfReactions"
  | some rl => .ok (rl.map (·.id))

/-- `get_rule_details` (accessor_functions.py, lines 213-264).  The result
`none` models the falsy tuple `([], [], False, False)` returned when no
rule targets the id or the target is not a species; the first line raises
when the document has no `listOfRules`, and the species scan raises when it
has no `listOfSpecies`. -/
def get_rule_details (m : Model) (targetId : String) :
    Except String (Option (List String × String × String × Option MathExpr)) :=
  match m.listOfRules with
  | none => .error "AttributeError: listOfRules"
  | some rules => do
    let rule? := rules.find? (fun r => r.varAttr == some targetId)
    let speciesIds ←
      match m.listOfSpecies with
      | none => Except.error "AttributeError: listOfSpecies"
      | some sl => Except.ok (sl.map (·.id))
    match rule? with
    | none => .ok none
    | some rule =>
      if targetId == "" || !(speciesIds.contains targetId) then .ok none
      else do
        let modifiers := rule.cis.filter (fun ci => speciesIds.contains ci)
        let comp ← get_species_compartment m targetId
        .ok (some (modifiers, targetId, comp.trim, rule.math))

/-- The `ci` descendants of a `kineticLaw` element, as found by
`.select("ci")`. -/
def KineticLaw.cis (kl : KineticLaw) : List String :=
  (kl.math.map (·.cis)).getD []

/-- The string `'"%s" -> "%s" -%s' % (species_id, reaction_id,
arrow_direction)` built by `get_regulatory_arrow` (accessor_functions.py,
line 67). -/
def regArrowFormat (speciesId reactionId direction : String) : String :=
  "\"" ++ speciesId ++ "\" -> \"" ++ reactionId ++ "\" -" ++ direction

/-- The inner `ci` loop of `get_regulatory_arrow` (accessor_functions.py,
lines 54-67) for one reaction.  `categorise` stands for
`categorise_interaction`, which lives in `effect_direction.py`, a module
that is not among the given sources; the embedding takes it as a
parameter. -/
def regArrowsCis (categorise : KineticLaw → String → String) (m : Model)
    (speciesIds : List String) (rid : String) (kl : KineticLaw) :
    List String → Except String (List String)
  | [] => .ok []
  | ci :: rest =>
    if speciesIds.contains ci then do
      let det ← get_reaction_details m rid
      if det.reactants.contains ci then
        regArrowsCis categorise m speciesIds rid kl rest
      else do
        let tail ← regArrowsCis categorise m speciesIds rid kl rest
        .ok (regArrowFormat ci rid (categorise kl ci) :: tail)
    else
      regArrowsCis categorise m speciesIds rid kl rest

/-- The outer reaction loop of `get_regulatory_arrow` (accessor_functions.py,
lines 52-67): `reaction.select_one("kineticLaw").select("ci")` raises when a
reaction has no `kineticLaw`. -/
def regArrowsReactions (categorise : KineticLaw → String → String) (m : Model)
    (speciesIds : List String) : List Reaction → Except String (List String)
  | [] => .ok []
  | r :: rest =>
    match r.kineticLaw with
    | none => .error "AttributeError: kineticLaw"
    | some kl => do
      let here ← regArrowsCis categorise m speciesIds r.id kl kl.cis
      let tail ← regArrowsReactions categorise m speciesIds rest
      .ok (here ++ tail)

/-- `get_regulatory_arrow` (accessor_functions.py, lines 31-69): an array of
strings, one `'"species" -> "reaction" -direction'` entry for each `ci`
occurrence of a non-reactant species id inside a reaction's kinetic law. -/
def get_regulatory_arrow (categorise : KineticLaw → String → String)
    (m : Model) (compartmentId : String) : Except String (List String) := do
  let speciesIds ← get_species m compartmentId
  match m.listOfReactions with
  | none => .error "AttributeError: listOfReactions"
  | some rl => regArrowsReactions categorise m speciesIds rl

/-- `arrow[k]` on a Python string: the k-th character as a one-character
string (Python has no separate character type).  `SBMLDiff.diff_compartment`
(sbml_diff.py, line 652) applies this with k = 0, 1, 2 to each value the
accessor returned, using the results as arrow source, target and
direction. -/
def pyStrIndex (s : String) (k : Nat) : Option String :=
  (s.data[k]?).map (fun c => String.mk [c])

/-- The `(arrow[0], arrow[1], arrow[2])` triple the diff driver inserts into
the regulatory-arrow accumulator (sbml_diff.py, line 652). -/
def regulatoryArrowComponents (a : String) : Option String × Option String × Option String :=
  (pyStrIndex a 0, pyStrIndex a 1, pyStrIndex a 2)

/-! The diff engine (src/sbml_diff/sbml_diff.py). -/

/-- The Python substring test `needle in hay` on the character lists of two
strings. -/
def containsSeq (needle : List Char) : List Char → Bool
  | [] => needle.isEmpty
  | c :: rest => needle.isPrefixOf (c :: rest) || containsSeq needle rest

/-- The `RuntimeError` message of `check_model_supported` for a model with
reactions but no species list (sbml_diff.py, line 117). -/
def errNoSpeciesList : String :=
  "Every model that includes a listOfReactions must include a listOfSpecies."

/-- The `RuntimeError` message of `check_model_supported` for a document
without an `sbml` root carrying an `xmlns` attribute (sbml_diff.py,
line 120). -/
def errNotSbml : String := "Every file must be an sbml model"

/-- The `RuntimeError` message of `check_model_supported` for a level-1
namespace (sbml_diff.py, line 123). -/
def errLevelOne : String :=
  "Every model must be in SBML level 2 or higher, since sbml-diff relies on id attributes"

/-- The three sequential checks of `SBMLDiff.check_model_supported`
(sbml_diff.py, lines 109-123) on one model: a model with a
`listOfReactions` but no `listOfSpecies`, a document without an `sbml` root
carrying an `xmlns` attribute, and a level-1 namespace each raise a
`RuntimeError`, modelled as `Except.error` with the code's message. -/
def checkModelOne (m : Model) : Except String Unit :=
  if m.listOfReactions.isSome && m.listOfSpecies.isNone then
    .error errNoSpeciesList
  else
    match m.sbml with
    | none => .error errNotSbml
    | some root =>
      match root.xmlns with
      | none => .error errNotSbml
      | some x =>
        if containsSeq ("level1".data) x.data then
          .error errLevelOne
        else .ok ()

/-- `SBMLDiff.check_model_supported` (sbml_diff.py, lines 109-123): the
per-model checks run over the models in order; the first failure aborts. -/
def check_model_supported : List Model → Except String Unit
  | [] => .ok ()
  | m :: rest => do
    checkModelOne m
    check_model_supported rest

/-- `str(hash(event))` in `SBMLDiff.diff_events` (sbml_diff.py, line 221).
This is CPython 2's default `hash` of a bs4 `Tag`: `Tag` defines `__eq__`
but, on Python 2, keeps the identity-derived default `__hash__`, so the
value is a function of the live object — identified here by its model index
and position in the document — and distinct event objects get distinct
values. -/
def genEventId (modelNum pos : Nat) : String :=
  "py-object-hash-" ++ toString modelNum ++ "-" ++ toString pos

/-- The effective id of an event after `diff_events` (sbml_diff.py, lines
220-222): the explicit `id` attribute if present, otherwise the generated
`str(hash(event))` written back into the document. -/
def eventIdAt (modelNum pos : Nat) (e : Event) : String :=
  e.id.getD (genEventId modelNum pos)

/-- The effective ids of the events of a list, positions counted from
`pos`. -/
def eventIdsGo (modelNum : Nat) : Nat → List Event → List String
  | _, [] => []
  | pos, e :: rest => eventIdAt modelNum pos e :: eventIdsGo modelNum (pos + 1) rest

/-- The effective ids of all events of a model, in document order
(`diff_events`' inner loop for one model; a model with no `listOfEvents` is
skipped, contributing nothing). -/
def modelEventIds (modelNum : Nat) (m : Model) : List String :=
  match m.listOfEvents with
  | none => []
  | some evs => eventIdsGo modelNum 0 evs

/-- One `event_status` update of `diff_events` (sbml_diff.py, lines
224-227): append the model index to an existing key's list, otherwise add
a fresh entry.  The Python dict is carried as an association list in
insertion order. -/
def addStatus (st : List (String × List Nat)) (eid : String) (i : Nat) :
    List (String × List Nat) :=
  if st.any (fun kv => kv.1 == eid) then
    st.map (fun kv => if kv.1 == eid then (kv.1, kv.2 ++ [i]) else kv)
  else st ++ [(eid, [i])]

/-- The `(event id, model index)` insertions performed by the two nested
loops of `diff_events` over the models from index `i` on, flattened in
iteration order. -/
def eventInsertionsGo : Nat → List Model → List (String × Nat)
  | _, [] => []
  | i, m :: rest => (modelEventIds i m).map (fun eid => (eid, i)) ++ eventInsertionsGo (i + 1) rest

/-- The `(event id, model index)` insertions performed by the two nested
loops of `diff_events`, flattened in iteration order. -/
def eventInsertions (models : List Model) : List (String × Nat) :=
  eventInsertionsGo 0 models

/-- The `event_status` fold of `diff_events` over a list of insertions. -/
def eventStatusGo : List (String × List Nat) → List (String × Nat) → List (String × List Nat)
  | st, [] => st
  | st, (eid, i) :: rest => eventStatusGo (addStatus st eid i) rest

/-- The finished `event_status` mapping of `SBMLDiff.diff_events`
(sbml_diff.py, lines 210-228): event id → list of model indices that
contain an event with that (explicit or generated) id. -/
def event_status (models : List Model) : List (String × List Nat) :=
  eventStatusGo [] (eventInsertions models)

/-- The lookup `event_status[event_id]` on the accumulated association
list: the value of the first entry carrying the key (`[]` when the key was
never inserted). -/
def statusLookup (st : List (String × List Nat)) (k : String) : List Nat :=
  ((st.find? (fun kv => kv.1 == k)).map (·.2)).getD []

/-- The model-index list `event_status` records for one event id (`[]` when
the id was never inserted). -/
def statusModels (models : List Model) (eid : String) : List Nat :=
  statusLookup (event_status models) eid

/-- The event of a list whose effective id matches, positions counted from
`pos`. -/
def findEventGo (modelNum : Nat) (eid : String) : Nat → List Event → Option Event
  | _, [] => none
  | pos, e :: rest =>
    if eventIdAt modelNum pos e == eid then some e
    else findEventGo modelNum eid (pos + 1) rest

/-- `select_one('#' + event_id)` inside `diff_event_with_id` (sbml_diff.py,
line 242): the event of the model whose effective id (explicit, or the
generated one written back by `diff_events`) matches. -/
def findEvent (m : Model) (modelNum : Nat) (eid : String) : Option Event :=
  findEventGo modelNum eid 0 (m.listOfEvents.getD [])

/-- The `event_name` selection of `SBMLDiff.diff_event_with_id`
(sbml_diff.py, lines 238-246): walking the model set in order, the first
model whose copy of the event carries a `name` attribute (while the running
name is still empty) supplies the display name. -/
def eventNameGo (models : List Model) (eid : String) :
    String → List Nat → Except String String
  | acc, [] => .ok acc
  | acc, i :: rest =>
    match models[i]? with
    | none => .error "IndexError: models"
    | some m =>
      match findEvent m i eid with
      | none => .error "AttributeError: event not found"
      | some e =>
        let acc' := if acc = "" then (match e.name with | some n => n | none => acc) else acc
        eventNameGo models eid acc' rest

/-- The display name `diff_event_with_id` records for the event with the
given id: the `event_name` fold over the event's model set. -/
def diffEventName (models : List Model) (eid : String) : Except String String :=
  eventNameGo models eid "" (statusModels models eid)

/-- The `non_intermediates` list of `SBMLDiff.find_downstream_species`
(sbml_diff.py, lines 539-554): every species appearing as a reactant or
modifier of a reaction whose `sboTerm` is not translation (SBO:0000184) or
degradation (SBO:0000179). -/
def non_intermediates (m : Model) : List String :=
  (m.listOfReactions.getD []).flatMap (fun r =>
    if r.sboTerm = some "SBO:0000184" ∨ r.sboTerm = some "SBO:0000179" then []
    else (r.listOfReactants.getD []).map (·.species) ++ r.listOfModifiers.getD [])

/-- The running value of the `rate_laws` variable in
`find_downstream_species`' cross-model scan (sbml_diff.py, lines 562-574):
`empty` is the initial `""`, `law l` a first kinetic law seen, and
`different` the sentinel that suppresses elision. -/
inductive RateScan where
  | empty : RateScan
  | law : MathExpr → RateScan
  | different : RateScan
deriving DecidableEq, Repr

/-- The cross-model kinetic-law scan of `find_downstream_species`
(sbml_diff.py, lines 562-574) for one reaction id: fold `rate_laws` over
all models, breaking on `different`.  A scanned model with no
`listOfReactions`, or a matching reaction with no `kineticLaw`, raises. -/
def rateLawScan (rid : String) : RateScan → List Model → Except String RateScan
  | acc, [] => .ok acc
  | acc, m :: rest =>
    match m.listOfReactions with
    | none => .error "AttributeError: listOfReactions"
    | some rl =>
      match rl.find? (fun r => r.id == rid) with
      | none => rateLawScan rid acc rest
      | some r =>
        match r.kineticLaw with
        | none => .error "AttributeError: kineticLaw"
        | some kl =>
          match acc, kl.math with
          | .empty, some l => rateLawScan rid (.law l) rest
          | .law l0, some l => if l0 = l then rateLawScan rid (.law l0) rest else .ok .different
          | acc', _ => rateLawScan rid acc' rest

/-- The elidability test of `find_downstream_species` (sbml_diff.py, lines
557-614) for one reaction: `some (input, downstream)` when the reaction is
elided, recording its sole reactant/modifier species and sole remaining
product. -/
def elideCandidate (models : List Model) (nonInts : List String) (r : Reaction) :
    Except String (Option (String × String)) :=
  if r.sboTerm ≠ some "SBO:0000184" then .ok none
  else do
    let scan ← rateLawScan r.id .empty models
    if scan = .different then .ok none
    else
      let rms := r.listOfModifiers.getD [] ++ (r.listOfReactants.getD []).map (·.species)
      match rms with
      | [s] =>
        if nonInts.contains s then .ok none
        else
          match (((r.listOfProducts.getD []).map (·.species)).filter (fun p => p != s)) with
          | [p] => .ok (some (s, p))
          | _ => .ok none
      | _ => .ok none

/-- The per-model output of `find_downstream_species`: the model's
`elided_list`, `elided_reactions` (the reaction objects; Python's `in`
compares them structurally) and `downstream_species` dict in insertion
order. -/
structure ModelElision where
  elidedList : List String
  elidedReactions : List Reaction
  downstreamSpecies : List (String × String)
deriving DecidableEq, Repr

/-- A lookup in the `downstream_species` dict carried as an association
list in insertion order: a repeated key was overwritten, so the last
matching pair wins. -/
def dictGet? (l : List (String × String)) (k : String) : Option String :=
  ((l.reverse.find? (fun kv => kv.1 == k)).map (·.2))

/-- The reaction loop of `find_downstream_species` (sbml_diff.py, lines
557-614) for one model, appending each elided reaction's data in iteration
order. -/
def elideLoop (models : List Model) (nonInts : List String) :
    List Reaction → Except String ModelElision
  | [] => .ok ⟨[], [], []⟩
  | r :: rest => do
    let c ← elideCandidate models nonInts r
    let st ← elideLoop models nonInts rest
    match c with
    | none => .ok st
    | some (s, p) => .ok ⟨s :: st.elidedList, r :: st.elidedReactions, (s, p) :: st.downstreamSpecies⟩

/-- `SBMLDiff.find_downstream_species` (sbml_diff.py, lines 519-614) for one
model. -/
def findDownstreamOne (models : List Model) (m : Model) : Except String ModelElision :=
  elideLoop models (non_intermediates m) (m.listOfReactions.getD [])

/-- `SBMLDiff.find_downstream_species` (sbml_diff.py, lines 519-614): the
per-model elision data, in model order. -/
def find_downstream_species_all (models : List Model) : List Model → Except String (List ModelElision)
  | [] => .ok []
  | m :: rest => do
    let st ← findDownstreamOne models m
    let tail ← find_downstream_species_all models rest
    .ok (st :: tail)

/-- `SBMLDiff.find_downstream_species` run over the full model list. -/
def find_downstream_species (models : List Model) : Except String (List ModelElision) :=
  find_downstream_species_all models models

/-- The product-arrow rewriting of `SBMLDiff.diff_reaction` (sbml_diff.py,
lines 496-499): in cartoon mode a product that is in the model's
`elided_list` is replaced by its `downstream_species` entry before the
arrow is inserted; a missing entry would be a `KeyError`. -/
def rewriteProducts (cartoon : Bool) (st : ModelElision) :
    List (String × String) → Except String (List (String × String))
  | [] => .ok []
  | (p, stoich) :: rest => do
    let p' ←
      if cartoon && st.elidedList.contains p then
        match dictGet? st.downstreamSpecies p with
        | none => Except.error "KeyError: downstream_species"
        | some d => Except.ok d
      else Except.ok p
    let tail ← rewriteProducts cartoon st rest
    .ok ((p', stoich) :: tail)

/-- What `SBMLDiff.diff_reaction` does for one model: whether the reaction
was added to a compartment bucket (`placement`), the reactant and product
arrows inserted (each a `(species, stoichiometry)` pair), and the value of
the sticky `is_transcription` flag afterwards. -/
structure ModelReactionDiff where
  placement : Option String
  reactantArrows : List (String × String)
  productArrows : List (String × String)
  transcriptionProductArrows : List (String × String)
  isTranscriptionAfter : Bool
deriving DecidableEq, Repr

/-- The body of `SBMLDiff.diff_reaction`'s model loop (sbml_diff.py, lines
439-504) for one model, excluding the parameter arrows (which reference
parameters, not species).  `sbml_diff.py` calls a three-argument
`get_reaction_details`; the repository's accessor (accessor_functions.py,
line 114) is the authority for its computation and takes the reaction id.
In cartoon mode the loop body is skipped for an elided reaction, for a
reaction whose sole reactant is elided, and for a single-reactant
zero-product (degradation) reaction; `is_transcription` is initialised once
before the loop, so it stays set for later models once set. -/
def diffReactionModel (cartoon : Bool) (st : ModelElision) (m : Model) (rid : String)
    (isT0 : Bool) : Except String ModelReactionDiff :=
  match (m.listOfReactions.getD []).find? (fun r => r.id == rid) with
  | none => .ok ⟨none, [], [], [], isT0⟩
  | some reaction => do
    let det ← get_reaction_details m rid
    if cartoon && (st.elidedReactions.contains reaction
        || (det.reactants.length == 1 && st.elidedList.contains (det.reactants.headD ""))
        || (det.reactants.length == 1 && det.products.isEmpty)) then
      .ok ⟨none, [], [], [], isT0⟩
    else
      let isT := isT0 || (cartoon &&
        (reaction.sboTerm == some "SBO:0000183" || reaction.sboTerm == some "SBO:0000589"))
      if det.allFalsy then .ok ⟨none, [], [], [], isT⟩
      else do
        let prods ← rewriteProducts cartoon st (det.products.zip det.productStoichs)
        if isT then
          .ok ⟨some (det.compartment.getD ""), det.reactants.zip det.reactantStoichs, [], prods, isT⟩
        else
          .ok ⟨some (det.compartment.getD ""), det.reactants.zip det.reactantStoichs, prods, [], isT⟩

/-- The `(compartment bucket, model index)` pairs of the `add_reaction`
calls `SBMLDiff.diff_reaction` performs for one reaction id, outside
cartoon mode, walking the models in presentation order. -/
def diffReactionPlacementsGo (rid : String) : Nat → List Model → Except String (List (String × Nat))
  | _, [] => .ok []
  | i, m :: rest => do
    let d ← diffReactionModel false ⟨[], [], []⟩ m rid false
    let tail ← diffReactionPlacementsGo rid (i + 1) rest
    match d.placement with
    | none => .ok tail
    | some c => .ok ((c, i) :: tail)

/-- The compartment buckets `SBMLDiff.diff_reaction` (sbml_diff.py, lines
426-517, non-cartoon mode) inserts a reaction into, one `(bucket, model)`
pair per model that contains and records it. -/
def diff_reaction_placements (models : List Model) (rid : String) :
    Except String (List (String × Nat)) :=
  diffReactionPlacementsGo rid 0 models

/-- Monadic map over the models used by `diff_models`' drivers. -/
def exceptMap (f : Model → Except String (List String)) :
    List Model → Except String (List (List String))
  | [] => .ok []
  | m :: rest => do
    let x ← f m
    let tail ← exceptMap f rest
    .ok (x :: tail)

/-- Monadic placement collection over a list of reaction ids. -/
def placementsForIds (models : List Model) :
    List String → Except String (List (String × List (String × Nat)))
  | [] => .ok []
  | rid :: rest => do
    let p ← diff_reaction_placements models rid
    let tail ← placementsForIds models rest
    .ok ((rid, p) :: tail)

/-- A representative of the diff tree `diff_models` builds before handing
it to the renderer: the reaction placements per reaction id and the event
accumulator.  (The rule, compartment and parameter drivers are not needed
by the claims under consideration.) -/
structure DiffOutput where
  reactionPlacements : List (String × List (String × Nat))
  eventEntries : List (String × List Nat)
deriving DecidableEq, Repr

/-- `SBMLDiff.diff_models` (sbml_diff.py, lines 654-686):
`check_model_supported` runs first, before any element of any model is
diffed; only then do the drivers run and produce output. -/
def diff_models (models : List Model) : Except String DiffOutput := do
  check_model_supported models
  let ridLists ← exceptMap get_reactions models
  let rids := ridLists.flatten.dedup
  let placements ← placementsForIds models rids
  .ok ⟨placements, event_status models⟩

/-! Definitions supporting the theorem statements. -/

/-- The kinetic-law `math` elements recorded for a reaction id across the
models that contain it — the laws `find_downstream_species`' cross-model
scan compares (a containing model whose `kineticLaw` has no `math` child
contributes nothing, exactly as the scan skips a falsy `rate_law`). -/
def reactionRateLaws (models : List Model) (rid : String) : List MathExpr :=
  models.flatMap (fun m =>
    match (m.listOfReactions.getD []).find? (fun r => r.id == rid) with
    | none => []
    | some r => (r.kineticLaw.bind (·.math)).toList)

/-- The compartment the reactant-and-product fold of `get_reaction_details`
computes when every referenced species resolves to a nonempty compartment:
the shared compartment when all agree, `"NONE"` on any disagreement, `""`
when the reaction has neither reactants nor products. -/
def sharedCompartment (cs : List String) : String :=
  if cs.isEmpty then ""
  else if cs.all (fun c => c == cs.headD "") then cs.headD ""
  else "NONE"

/-- The single rewriting step `diff_reaction` applies to a product species
in cartoon mode (sbml_diff.py, lines 496-499): an elided species is
replaced by its downstream species; `none` models the `KeyError` of a
missing dict entry. -/
def rewriteSpecies (st : ModelElision) (p : String) : Option String :=
  if st.elidedList.contains p then dictGet? st.downstreamSpecies p else some p

/-- The number of events of a model carrying the given explicit id. -/
def eventIdCount (m : Model) (eid : String) : Nat :=
  ((m.listOfEvents.getD []).filter (fun e => e.id == some eid)).length

/-! Concrete documents used as counterexamples and witnesses. -/

/-- A species of the one-compartment cartoon document. -/
def speciesC (sid : String) : Species := { id := sid, compartment := "c" }

/-- A translation reaction (SBO:0000184) turning `mRNA` into `Protein_A`:
elidable in cartoon mode. -/
def trR1 : Reaction :=
  { id := "R1", sboTerm := some "SBO:0000184",
    listOfReactants := some [⟨"mRNA", none⟩],
    listOfProducts := some [⟨"Protein_A", none⟩],
    kineticLaw := some ⟨some ⟨"k1*mRNA", []⟩⟩ }

/-- A degradation-tagged reaction (SBO:0000179) with two reactants, one of
which is the elided `mRNA`. -/
def degR2 : Reaction :=
  { id := "R2", sboTerm := some "SBO:0000179",
    listOfReactants := some [⟨"mRNA", none⟩, ⟨"X", none⟩],
    listOfProducts := some [⟨"Y", none⟩],
    kineticLaw := some ⟨some ⟨"k2*mRNA*X", []⟩⟩ }

/-- A document whose translation reaction `R1` elides `mRNA` while the
two-reactant reaction `R2` still references it. -/
def cartoonModel : Model :=
  { sbml := some ⟨some "http://www.sbml.org/sbml/level2/version4"⟩,
    listOfSpecies := some [speciesC "mRNA", speciesC "X", speciesC "Y", speciesC "Protein_A"],
    listOfReactions := some [trR1, degR2] }

/-- The elision data `find_downstream_species` computes for
`cartoonModel`. -/
def cartoonElision : ModelElision :=
  ⟨["mRNA"], [trR1], [("mRNA", "Protein_A")]⟩

/-- A reaction whose sole reactant lives in compartment `c1` and sole
product in compartment `c2`. -/
def mixedReaction : Reaction :=
  { id := "R",
    listOfReactants := some [⟨"A", none⟩],
    listOfProducts := some [⟨"B", none⟩],
    kineticLaw := some ⟨some ⟨"k*A", []⟩⟩ }

/-- A document whose reaction `R` has its sole reactant in compartment `c1`
and its sole product in compartment `c2`. -/
def mixedModel : Model :=
  { sbml := some ⟨some "http://www.sbml.org/sbml/level2/version4"⟩,
    listOfSpecies := some [{ id := "A", compartment := "c1" }, { id := "B", compartment := "c2" }],
    listOfReactions := some [mixedReaction] }

/-- A reaction regulated by the non-reactant species `A` appearing in its
kinetic law. -/
def regReaction : Reaction :=
  { id := "R",
    listOfReactants := some [⟨"B", none⟩],
    kineticLaw := some ⟨some ⟨"k*A", ["A"]⟩⟩ }

/-- A document whose reaction `R` regulates via the non-reactant species
`A` appearing in its kinetic law. -/
def regModel : Model :=
  { sbml := some ⟨some "http://www.sbml.org/sbml/level2/version4"⟩,
    listOfSpecies := some [speciesC "A", speciesC "B"],
    listOfReactions := some [regReaction] }

/-- A monotonicity classifier standing in for `categorise_interaction` in
concrete runs. -/
def constIncreasing : KineticLaw → String → String :=
  fun _ _ => "monotonic_increasing"

/-- A document with reactions but no `listOfSpecies`: rejected by
`check_model_supported`. -/
def badModel : Model :=
  { sbml := some ⟨some "http://www.sbml.org/sbml/level2/version4"⟩,
    listOfReactions := some [{ id := "R" }] }

/-- A document whose reaction `R` has no `kineticLaw` element. -/
def noKineticLawModel : Model :=
  { sbml := some ⟨some "http://www.sbml.org/sbml/level2/version4"⟩,
    listOfSpecies := some [speciesC "S"],
    listOfReactions := some [{ id := "R", listOfReactants := some [⟨"S", none⟩] }] }

/-- A document with species but no `listOfRules`. -/
def noRulesModel : Model :=
  { sbml := some ⟨some "http://www.sbml.org/sbml/level2/version4"⟩,
    listOfSpecies := some [speciesC "S"] }

/-- An event with no `id` attribute. -/
def anonEvent : Event := { trigger := some ⟨"gt(time, 5)", []⟩ }

/-- A document holding one id-less event. -/
def anonEventModel : Model :=
  { sbml := some ⟨some "http://www.sbml.org/sbml/level2/version4"⟩,
    listOfEvents := some [anonEvent] }

/-- A document holding one event with explicit id `E` and the given
display name. -/
def namedEventModel (n : String) : Model :=
  { sbml := some ⟨some "http://www.sbml.org/sbml/level2/version4"⟩,
    listOfEvents := some [{ id := some "E", name := some n, trigger := some ⟨"t", []⟩ }] }

/-- A reaction whose only nonempty detail is an empty kinetic law: all of
its `get_reaction_details` results are falsy. -/
def emptyDetailReaction : Reaction := { id := "Rempty", kineticLaw := some ⟨none⟩ }

/-- A document holding `emptyDetailReaction` and no rules or events. -/
def emptyDetailModel : Model :=
  { sbml := some ⟨some "http://www.sbml.org/sbml/level2/version4"⟩,
    listOfSpecies := some [speciesC "S"],
    listOfReactions := some [emptyDetailReaction],
    listOfRules := some [{ varAttr := some "Q", cis := [], math := none }] }

/-! Theorems. -/

/-- C1: For every model set S and total model count N, the color assigned
by `assign_color` is: neutral black whenever N = 1; the per-model color of
the single contained index whenever |S| = 1 and N > 1; the shared grey
whenever |S| = N; black in the remaining case 0 < |S| < N; and the
differences-found outcome becomes true exactly when |S| ≠ N — in
particular, with N = 1 (where any model set is {0}) it stays false. -/
theorem assign_color_policy (N : Nat) (colors : List String) (S : List Nat)
    (hN : 0 < N) (hnodup : S.Nodup) (hne : S ≠ []) (hmem : ∀ i ∈ S, i < N)
    (hcols : N ≤ colors.length) :
    (N = 1 → assignColor N colors S = some "black") ∧
    (S.length = 1 → 1 < N → assignColor N colors S = some (colors.getD (S.headD 0) "")) ∧
    (S.length = N → 1 < N → assignColor N colors S = some "grey") ∧
    (1 < S.length → S.length < N → assignColor N colors S = some "black") ∧
    (assignColorFlag N S false false = true ↔ S.length ≠ N) ∧
    (N = 1 → assignColorFlag N S false false = false) := by
  refine ⟨?_, ?_, ?_, ?_, ?_, ?_⟩
  · intro h1
    simp [assignColor, h1]
  · intro hlen hN1
    obtain ⟨a, ha⟩ := List.length_eq_one.mp hlen
    subst ha
    have halt : a < colors.length := lt_of_lt_of_le (hmem a (by simp)) hcols
    have h2 : colors[a]? = some colors[a] := List.getElem?_eq_getElem halt
    have h3 : colors.getD a "" = colors[a] := by
      rw [List.getD_eq_getElem?_getD, h2]; rfl
    simp only [assignColor, List.length_singleton, List.headD_cons]
    rw [if_neg (by omega), if_pos ⟨by simp, hN1⟩, h2, h3]
  · intro hlen hN1
    have h1 : ¬ N = 1 := by omega
    have h2 : ¬ (S.length = 1 ∧ 1 < N) := by
      rintro ⟨h, _⟩; omega
    simp only [assignColor]
    rw [if_neg h1, if_neg h2, if_pos hlen]
  · intro h2 hlt
    have hn1 : ¬ N = 1 := by omega
    have hg2 : ¬ (S.length = 1 ∧ 1 < N) := by
      rintro ⟨h, _⟩; omega
    have hg3 : ¬ S.length = N := by omega
    simp only [assignColor]
    rw [if_neg hn1, if_neg hg2, if_neg hg3, if_pos ⟨by omega, hlt⟩]
  · simp only [assignColorFlag, Bool.not_false, Bool.and_true, Bool.false_or,
      bne_iff_ne]
    exact ne_comm
  · intro h1
    subst h1
    have hS : S = [0] := by
      cases S with
      | nil => exact absurd rfl hne
      | cons a t =>
        have ha0 : a = 0 := by have := hmem a (by simp); omega
        subst ha0
        cases t with
        | nil => rfl
        | cons b t2 =>
          have hb0 : b = 0 := by have := hmem b (by simp); omega
          subst hb0
          simp [List.nodup_cons] at hnodup
    rw [hS]
    simp [assignColorFlag]

/-- Witness for C1 at N = 2, colors `["#a", "#b"]`, S = {0}. -/
theorem assign_color_policy_witness :
    ((2 : Nat) = 1 → assignColor 2 ["#a", "#b"] [0] = some "black") ∧
    (([0] : List Nat).length = 1 → 1 < 2 →
      assignColor 2 ["#a", "#b"] [0] = some (["#a", "#b"].getD (([0] : List Nat).headD 0) "")) ∧
    (([0] : List Nat).length = 2 → 1 < 2 → assignColor 2 ["#a", "#b"] [0] = some "grey") ∧
    (1 < ([0] : List Nat).length → ([0] : List Nat).length < 2 →
      assignColor 2 ["#a", "#b"] [0] = some "black") ∧
    (assignColorFlag 2 [0] false false = true ↔ ([0] : List Nat).length ≠ 2) ∧
    ((2 : Nat) = 1 → assignColorFlag 2 [0] false false = false) :=
  assign_color_policy 2 ["#a", "#b"] [0] (by omega) (by simp) (by simp)
    (by intro i hi; simp at hi; omega) (by simp)

/-- C10: `assign_color` returns a color string for every nonempty model set
of valid indices, but with more than one model and an empty model set no
branch applies: it returns `none` while still setting the
differences-found flag. -/
theorem assign_color_empty_set (N : Nat) (colors : List String) (S : List Nat)
    (hnodup : S.Nodup) (hmem : ∀ i ∈ S, i < N) (hcols : N ≤ colors.length) :
    (1 ≤ N → S ≠ [] → (assignColor N colors S).isSome = true) ∧
    (1 < N → assignColor N colors [] = none ∧ assignColorFlag N [] false false = true) := by
  constructor
  · intro hN hne
    by_cases h1 : N = 1
    · simp [assignColor, h1]
    have hN1 : 1 < N := by omega
    have hlenle : S.length ≤ N := by
      have hc : S.toFinset.card = S.length := List.toFinset_card_of_nodup hnodup
      have hsub : S.toFinset ⊆ Finset.range N := by
        intro x hx
        simp only [List.mem_toFinset] at hx
        exact Finset.mem_range.mpr (hmem x hx)
      calc S.length = S.toFinset.card := hc.symm
        _ ≤ (Finset.range N).card := Finset.card_le_card hsub
        _ = N := Finset.card_range N
    by_cases hl1 : S.length = 1
    · obtain ⟨a, ha⟩ := List.length_eq_one.mp hl1
      subst ha
      have halt : a < colors.length := lt_of_lt_of_le (hmem a (by simp)) hcols
      simp only [assignColor, List.length_singleton, List.headD_cons]
      rw [if_neg h1, if_pos ⟨by simp, hN1⟩, List.getElem?_eq_getElem halt]
      rfl
    by_cases hlN : S.length = N
    · simp only [assignColor]
      rw [if_neg h1, if_neg (by rintro ⟨h, _⟩; omega), if_pos hlN]
      rfl
    · have h0 : 0 < S.length := List.length_pos.mpr hne
      have hlt : S.length < N := lt_of_le_of_ne hlenle hlN
      simp only [assignColor]
      rw [if_neg h1, if_neg (by rintro ⟨h, _⟩; omega), if_neg hlN, if_pos ⟨h0, hlt⟩]
      rfl
  · intro hN1
    constructor
    · simp only [assignColor, List.length_nil]
      rw [if_neg (by omega), if_neg (by rintro ⟨h, _⟩; omega), if_neg (by omega),
        if_neg (by rintro ⟨h, _⟩; omega)]
    · simp only [assignColorFlag, Bool.not_false, Bool.and_true, Bool.false_or,
        List.length_nil, bne_iff_ne]
      omega

/-- Witness for C10 at N = 2, colors `["#a", "#b"]`, S = {0} and S = {}. -/
theorem assign_color_empty_set_witness :
    (1 ≤ 2 → ([0] : List Nat) ≠ [] → (assignColor 2 ["#a", "#b"] [0]).isSome = true) ∧
    (1 < 2 → assignColor 2 ["#a", "#b"] [] = none ∧
      assignColorFlag 2 [] false false = true) :=
  assign_color_empty_set 2 ["#a", "#b"] [0] (by simp)
    (by intro i hi; simp at hi; omega) (by simp)

/-- C3 (counterexample): in cartoon mode, `find_downstream_species` on
`cartoonModel` elides `mRNA` with downstream `Protein_A`, yet
`diff_reaction` on the two-reactant reaction `R2` inserts a reactant arrow
still referencing the elided `mRNA` — the reference is not rewritten to its
downstream species before insertion. -/
theorem cartoon_reactant_arrow_cex :
    find_downstream_species [cartoonModel] = .ok [cartoonElision] ∧
    "mRNA" ∈ cartoonElision.elidedList ∧
    dictGet? cartoonElision.downstreamSpecies "mRNA" = some "Protein_A" ∧
    diffReactionModel true cartoonElision cartoonModel "R2" false =
      .ok ⟨some "c", [("mRNA", ""), ("X", "")], [("Y", "")], [], false⟩ ∧
    (("mRNA", "") : String × String) ∈ [(("mRNA" : String), ("" : String)), ("X", "")] ∧
    ("mRNA" : String) ≠ "Protein_A" :=
  ⟨rfl, by decide, rfl, rfl, by decide, by decide⟩

/-- C5 (counterexample): a reaction with no `kineticLaw` element makes
`get_reaction_details` raise (`None.select_one`), and a model with no
`listOfRules` makes `get_rule_details` raise — the accessors do not return
an empty/falsy result for these absent optional substructures. -/
theorem absent_substructure_raises_cex :
    get_reaction_details noKineticLawModel "R" = .error "AttributeError: kineticLaw" ∧
    get_rule_details noRulesModel "T" = .error "AttributeError: listOfRules" :=
  ⟨rfl, rfl⟩

/-- C6 (counterexample): two id-less events with identical content in two
models receive distinct generated ids (Python 2's default `hash` is
identity-based, not a content hash) and end up as two separate
single-model accumulator entries instead of one collapsed entry. -/
theorem event_hash_not_content_cex :
    event_status [anonEventModel, anonEventModel] =
      [(genEventId 0 0, [0]), (genEventId 1 0, [1])] ∧
    genEventId 0 0 ≠ genEventId 1 0 :=
  ⟨rfl, by decide⟩

/-- C7 (counterexample): reaction `R` of `mixedModel` has its sole reactant
in compartment `c1`, yet because its product lies in `c2` the compartment
`get_reaction_details` derives — and the bucket `diff_reaction` places the
reaction into — is `"NONE"`, not the reactants' shared `c1`. -/
theorem reaction_compartment_products_cex :
    get_reaction_details mixedModel "R" =
      .ok ⟨["A"], ["B"], some "NONE", some ⟨"k*A", []⟩, [""], [""]⟩ ∧
    get_species_compartment mixedModel "A" = .ok "c1" ∧
    (some "NONE" : Option String) ≠ some "c1" ∧
    diff_reaction_placements [mixedModel] "R" = .ok [("NONE", 0)] :=
  ⟨rfl, rfl, by decide, rfl⟩

/-- C8 (counterexample): `get_regulatory_arrow` returns formatted strings,
not `(source, target, direction)` triples; the driver's `arrow[0]`,
`arrow[1]`, `arrow[2]` indexing therefore yields the string's first three
characters — the inserted "source" is the quote character, not the source
species id `A`. -/
theorem regulatory_arrow_string_cex :
    get_regulatory_arrow constIncreasing regModel "c" =
      .ok ["\"A\" -> \"R\" -monotonic_increasing"] ∧
    regulatoryArrowComponents "\"A\" -> \"R\" -monotonic_increasing" =
      (some "\"", some "A", some "\"") ∧
    (some "\"" : Option String) ≠ some "A" :=
  ⟨rfl, rfl, by decide⟩

/-- C9 (counterexample): two presentations of the same two models yield
different recorded event display names — the first-named model in
presentation order wins — so the accumulator contents differ beyond a
relabelling of color indices. -/
theorem permutation_event_name_cex :
    diffEventName [namedEventModel "foo", namedEventModel "bar"] "E" = .ok "foo" ∧
    diffEventName [namedEventModel "bar", namedEventModel "foo"] "E" = .ok "bar" ∧
    ("foo" : String) ≠ "bar" :=
  ⟨rfl, rfl, by decide⟩

/-- Every error `checkModelOne` can raise is one of the three descriptive
messages. -/
theorem checkModelOne_error_mem (m : Model) (e : String)
    (h : checkModelOne m = .error e) :
    e = errNoSpeciesList ∨ e = errNotSbml ∨ e = errLevelOne := by
  unfold checkModelOne at h
  split at h
  · exact Or.inl (by injection h with h'; exact h'.symm)
  · split at h
    · exact Or.inr (Or.inl (by injection h with h'; exact h'.symm))
    · split at h
      · exact Or.inr (Or.inl (by injection h with h'; exact h'.symm))
      · split at h
        · exact Or.inr (Or.inr (by injection h with h'; exact h'.symm))
        · exact absurd h (by simp)

/-- A failing per-model check makes `check_model_supported` fail with one of
the three descriptive messages. -/
theorem check_model_supported_error (models : List Model) (m : Model) (e : String)
    (hm : m ∈ models) (he : checkModelOne m = .error e) :
    ∃ e', check_model_supported models = .error e' ∧
      (e' = errNoSpeciesList ∨ e' = errNotSbml ∨ e' = errLevelOne) := by
  induction models with
  | nil => simp at hm
  | cons a rest ih =>
    cases hc : checkModelOne a with
    | error e0 =>
      refine ⟨e0, ?_, checkModelOne_error_mem a e0 hc⟩
      unfold check_model_supported
      rw [hc]
      rfl
    | ok u =>
      rcases List.mem_cons.mp hm with hma | hma
      · subst hma
        rw [he] at hc
        exact absurd hc (by simp)
      · obtain ⟨e', h1, h2⟩ := ih hma
        refine ⟨e', ?_, h2⟩
        unfold check_model_supported
        rw [hc]
        cases u
        exact h1

/-- A structurally invalid model is rejected by `checkModelOne`. -/
theorem checkModelOne_rejects (m : Model)
    (hbad : (m.listOfReactions.isSome = true ∧ m.listOfSpecies = none) ∨
      m.sbml = none ∨
      (∃ root, m.sbml = some root ∧ root.xmlns = none) ∨
      (∃ root x, m.sbml = some root ∧ root.xmlns = some x ∧
        containsSeq ("level1".data) x.data = true)) :
    ∃ e, checkModelOne m = .error e := by
  by_cases h1 : (m.listOfReactions.isSome && m.listOfSpecies.isNone) = true
  · exact ⟨errNoSpeciesList, by unfold checkModelOne; rw [if_pos h1]⟩
  rcases hbad with ⟨hr, hs⟩ | hn | ⟨root, hroot, hx⟩ | ⟨root, x, hroot, hx, hlvl⟩
  · exact absurd (by simp [hr, hs]) h1
  · refine ⟨errNotSbml, ?_⟩
    unfold checkModelOne
    rw [if_neg h1, hn]
  · refine ⟨errNotSbml, ?_⟩
    unfold checkModelOne
    rw [if_neg h1, hroot]
    simp [hx]
  · refine ⟨errLevelOne, ?_⟩
    unfold checkModelOne
    rw [if_neg h1, hroot]
    simp [hx, hlvl]

/-- C4: if any input model contains a `listOfReactions` but no
`listOfSpecies`, or lacks an `sbml` root with an `xmlns` attribute, or
declares a level-1 namespace, then `diff_models` fails with one of the
three descriptive messages before any element of any model is diffed — no
diff output is produced at all. -/
theorem diff_models_rejects_invalid (models : List Model) (m : Model)
    (hm : m ∈ models)
    (hbad : (m.listOfReactions.isSome = true ∧ m.listOfSpecies = none) ∨
      m.sbml = none ∨
      (∃ root, m.sbml = some root ∧ root.xmlns = none) ∨
      (∃ root x, m.sbml = some root ∧ root.xmlns = some x ∧
        containsSeq ("level1".data) x.data = true)) :
    ∃ e, diff_models models = .error e ∧
      (e = errNoSpeciesList ∨ e = errNotSbml ∨ e = errLevelOne) := by
  obtain ⟨e0, he0⟩ := checkModelOne_rejects m hbad
  obtain ⟨e', h1, h2⟩ := check_model_supported_error models m e0 hm he0
  refine ⟨e', ?_, h2⟩
  unfold diff_models
  rw [h1]
  rfl

/-- Witness for C4: `badModel` has reactions but no species list, and the
whole diff aborts with a descriptive error. -/
theorem diff_models_rejects_invalid_witness :
    ∃ e, diff_models [badModel] = .error e ∧
      (e = errNoSpeciesList ∨ e = errNotSbml ∨ e = errLevelOne) :=
  diff_models_rejects_invalid [badModel] badModel (by simp) (Or.inl ⟨rfl, rfl⟩)

/-- C5 (amended): absent optional substructure is tolerated where the code
actually guards for it — a reaction whose child lists are absent and whose
kinetic law has no `math` yields an all-falsy `get_reaction_details` result
and the model is omitted from the reaction accumulators; a present
`listOfRules` with no rule for the target yields the falsy
`get_rule_details` result; a model with no `listOfEvents` contributes no
event entries — but (per the counterexample) an absent `kineticLaw`
element or an absent `listOfRules` raises instead. -/
theorem absent_substructure_tolerance
    (m1 : Model) (rl1 : List Reaction) (r1 : Reaction) (rid : String)
    (m2 : Model) (rules2 : List SRule) (sl2 : List Species) (t2 : String)
    (m3 : Model) (i3 : Nat)
    (h11 : m1.listOfReactions = some rl1)
    (h12 : rl1.find? (fun r => r.id == rid) = some r1)
    (h13 : r1.listOfReactants = none) (h14 : r1.listOfProducts = none)
    (h15 : r1.kineticLaw = some ⟨none⟩)
    (h21 : m2.listOfRules = some rules2)
    (h22 : rules2.find? (fun r => r.varAttr == some t2) = none)
    (h23 : m2.listOfSpecies = some sl2)
    (h31 : m3.listOfEvents = none) :
    get_reaction_details m1 rid = .ok ⟨[], [], some "", none, [], []⟩ ∧
    (⟨[], [], some "", none, [], []⟩ : ReactionDetails).allFalsy = true ∧
    diffReactionModel false ⟨[], [], []⟩ m1 rid false = .ok ⟨none, [], [], [], false⟩ ∧
    get_rule_details m2 t2 = .ok none ∧
    modelEventIds i3 m3 = [] := by
  have hdet : get_reaction_details m1 rid = .ok ⟨[], [], some "", none, [], []⟩ := by
    unfold get_reaction_details
    simp only [h11, h12, h13, h14, h15]
    rfl
  refine ⟨hdet, rfl, ?_, ?_, ?_⟩
  · unfold diffReactionModel
    simp only [h11, Option.getD_some, h12]
    rw [hdet]
    rfl
  · unfold get_rule_details
    simp only [h21, h23, h22]
    rfl
  · unfold modelEventIds
    rw [h31]

/-- Witness for C5 on concrete documents: `emptyDetailModel`'s reaction with
an empty kinetic law, its rule list without a rule for `T`, and
`noRulesModel` without events. -/
theorem absent_substructure_tolerance_witness :
    get_reaction_details emptyDetailModel "Rempty" = .ok ⟨[], [], some "", none, [], []⟩ ∧
    (⟨[], [], some "", none, [], []⟩ : ReactionDetails).allFalsy = true ∧
    diffReactionModel false ⟨[], [], []⟩ emptyDetailModel "Rempty" false =
      .ok ⟨none, [], [], [], false⟩ ∧
    get_rule_details emptyDetailModel "T" = .ok none ∧
    modelEventIds 0 noRulesModel = [] :=
  absent_substructure_tolerance emptyDetailModel [emptyDetailReaction] emptyDetailReaction
    "Rempty" emptyDetailModel [{ varAttr := some "Q", cis := [], math := none }]
    [speciesC "S"] "T" noRulesModel 0 rfl rfl rfl rfl rfl rfl rfl rfl rfl

/-- C6 (amended): an event lacking an explicit id is assigned a generated
id derived from the runtime identity of the event object (Python 2's
default object hash), not from its content: two id-less events — whatever
their content, identical or not — in two models receive distinct generated
ids and stay two separate single-model accumulator entries, and the
comparison never fails for want of an id. -/
theorem event_generated_ids_distinct (a b : Model) (e1 e2 : Event)
    (ha : a.listOfEvents = some [e1]) (hb : b.listOfEvents = some [e2])
    (h1 : e1.id = none) (h2 : e2.id = none) :
    event_status [a, b] = [(genEventId 0 0, [0]), (genEventId 1 0, [1])] ∧
    genEventId 0 0 ≠ genEventId 1 0 := by
  have hne : genEventId 0 0 ≠ genEventId 1 0 := by decide
  refine ⟨?_, hne⟩
  have hbeq : (genEventId 0 0 == genEventId 1 0) = false :=
    beq_eq_false_iff_ne.mpr hne
  have hA : modelEventIds 0 a = [genEventId 0 0] := by
    unfold modelEventIds
    rw [ha]
    unfold eventIdsGo eventIdsGo eventIdAt
    rw [h1]
    rfl
  have hB : modelEventIds 1 b = [genEventId 1 0] := by
    unfold modelEventIds
    rw [hb]
    unfold eventIdsGo eventIdsGo eventIdAt
    rw [h2]
    rfl
  unfold event_status eventInsertions eventInsertionsGo eventInsertionsGo eventInsertionsGo
  rw [hA, hB]
  simp [eventStatusGo, addStatus, hbeq]

/-- Witness for C6: two copies of the same id-less event document. -/
theorem event_generated_ids_distinct_witness :
    event_status [anonEventModel, anonEventModel] =
      [(genEventId 0 0, [0]), (genEventId 1 0, [1])] ∧
    genEventId 0 0 ≠ genEventId 1 0 :=
  event_generated_ids_distinct anonEventModel anonEventModel anonEvent anonEvent
    rfl rfl rfl rfl

/-- Reducing `Except.ok x >>= f`. -/
theorem ok_bind {α β : Type} (x : α) (f : α → Except String β) :
    (Except.ok x >>= f) = f x := rfl

/-- Reducing `Except.error e >>= f`. -/
theorem error_bind {α β : Type} (e : String) (f : α → Except String β) :
    ((Except.error e : Except String α) >>= f) = Except.error e := rfl

/-- `rewriteProducts` without cartoon mode changes nothing. -/
theorem rewriteProducts_false (st : ModelElision) (l : List (String × String)) :
    rewriteProducts false st l = .ok l := by
  induction l with
  | nil => rfl
  | cons q rest ih =>
    obtain ⟨p, stoich⟩ := q
    unfold rewriteProducts
    rw [show (false && st.elidedList.contains p) = false from rfl]
    simp only [Bool.false_eq_true, if_neg, ite_false]
    rw [ok_bind, ih]
    rfl

/-- Reducing `pure x >>= f` in the `Except` monad. -/
theorem epure_bind {α β : Type} (x : α) (f : α → Except String β) :
    ((pure x : Except String α) >>= f) = f x := rfl

/-- One step of the compartment fold, with the species resolved. -/
theorem foldCompartment_cons (m : Model) (comp sid : String) (rest : List String)
    (c : String) (h : get_species_compartment m sid = .ok c) :
    foldCompartment m comp (sid :: rest) =
      foldCompartment m
        (if (if comp = "" then c else comp) ≠ c then "NONE"
         else (if comp = "" then c else comp)) rest := by
  conv_lhs => rw [foldCompartment]
  unfold updateCompartment
  simp only [h, ok_bind, epure_bind]

/-- The compartment fold from a nonempty running value: the value survives
iff every remaining species agrees with it, else `"NONE"`. -/
theorem foldCompartment_of_ne (m : Model) (compOf : String → String)
    (sids : List String) (comp : String) (hco : comp ≠ "")
    (hres : ∀ sid ∈ sids, get_species_compartment m sid = .ok (compOf sid)) :
    foldCompartment m comp sids =
      .ok (if sids.all (fun sid => compOf sid == comp) then comp else "NONE") := by
  induction sids generalizing comp with
  | nil => simp [foldCompartment]
  | cons sid rest ih =>
    have hsid := hres sid (by simp)
    rw [foldCompartment_cons m comp sid rest (compOf sid) hsid]
    rw [if_neg hco]
    simp only [List.all_cons]
    by_cases hc : compOf sid = comp
    · rw [if_neg (show ¬ comp ≠ compOf sid from fun h => h hc.symm)]
      rw [ih comp hco (fun s hs => hres s (by simp [hs]))]
      have hbt : (compOf sid == comp) = true := by simp [hc]
      simp only [hbt, Bool.true_and]
    · have hbeq : (compOf sid == comp) = false := beq_eq_false_iff_ne.mpr hc
      rw [if_pos (show comp ≠ compOf sid from fun h => hc h.symm)]
      rw [ih "NONE" (by decide) (fun s hs => hres s (by simp [hs]))]
      simp only [hbeq, Bool.false_and, Bool.false_eq_true, if_false]
      congr 1
      split <;> rfl

/-- The compartment fold of `get_reaction_details` from the initial `""`
computes `sharedCompartment` of the species' compartments, provided every
species resolves to a nonempty compartment. -/
theorem foldCompartment_shared (m : Model) (compOf : String → String)
    (sids : List String)
    (hres : ∀ sid ∈ sids, get_species_compartment m sid = .ok (compOf sid) ∧ compOf sid ≠ "") :
    foldCompartment m "" sids = .ok (sharedCompartment (sids.map compOf)) := by
  cases sids with
  | nil => rfl
  | cons sid rest =>
    have hsid := (hres sid (by simp)).1
    have hne : compOf sid ≠ "" := (hres sid (by simp)).2
    rw [foldCompartment_cons m "" sid rest (compOf sid) hsid]
    rw [if_pos rfl, if_neg (show ¬ compOf sid ≠ compOf sid from fun h => h rfl)]
    rw [foldCompartment_of_ne m compOf rest (compOf sid) hne
      (fun s hs => (hres s (by simp [hs])).1)]
    unfold sharedCompartment
    simp only [List.map_cons, List.isEmpty_cons, List.headD_cons, List.all_cons,
      List.all_map, Bool.false_eq_true, if_false]
    have hbt : (compOf sid == compOf sid) = true := by simp
    simp only [hbt, Bool.true_and]
    rfl

/-- C7 (amended): the compartment `get_reaction_details` assigns to a
reaction is derived from its reactants and products together — the shared
compartment when they all agree, the `"NONE"` bucket on any disagreement,
and the empty string when the reaction has neither reactants nor
products — and whenever the details are not entirely falsy,
`diff_reaction` places the reaction into exactly that bucket of the diff
tree along with its reactant and product arrows. -/
theorem reaction_compartment_bucket
    (m : Model) (rid : String) (r : Reaction) (kl : KineticLaw) (compOf : String → String)
    (hfind : (m.listOfReactions.getD []).find? (fun r' => r'.id == rid) = some r)
    (hkl : r.kineticLaw = some kl)
    (hres : ∀ sid ∈ (r.listOfReactants.getD []).map SpeciesRef.species ++
        (r.listOfProducts.getD []).map SpeciesRef.species,
      get_species_compartment m sid = .ok (compOf sid) ∧ compOf sid ≠ "") :
    ∃ det, get_reaction_details m rid = .ok det ∧
      det.compartment = some (sharedCompartment
        (((r.listOfReactants.getD []).map SpeciesRef.species ++
          (r.listOfProducts.getD []).map SpeciesRef.species).map compOf)) ∧
      (det.allFalsy = false →
        diffReactionModel false ⟨[], [], []⟩ m rid false =
          .ok ⟨det.compartment, det.reactants.zip det.reactantStoichs,
            det.products.zip det.productStoichs, [], false⟩) := by
  obtain ⟨rl, hrl⟩ : ∃ rl, m.listOfReactions = some rl := by
    cases hml : m.listOfReactions with
    | none => rw [hml] at hfind; simp at hfind
    | some rl => exact ⟨rl, rfl⟩
  rw [hrl] at hfind
  simp only [Option.getD_some] at hfind
  have hdet : get_reaction_details m rid =
      .ok ⟨(r.listOfReactants.getD []).map SpeciesRef.species,
        (r.listOfProducts.getD []).map SpeciesRef.species,
        some (sharedCompartment
          (((r.listOfReactants.getD []).map SpeciesRef.species ++
            (r.listOfProducts.getD []).map SpeciesRef.species).map compOf)),
        kl.math,
        (r.listOfReactants.getD []).map (fun sr => sr.stoichiometry.getD ""),
        (r.listOfProducts.getD []).map (fun sr => sr.stoichiometry.getD "")⟩ := by
    unfold get_reaction_details
    simp only [hrl, hfind]
    rw [foldCompartment_shared m compOf _ hres, ok_bind, hkl]
  refine ⟨_, hdet, rfl, ?_⟩
  intro hfalsy
  unfold diffReactionModel
  simp only [hrl, Option.getD_some, hfind]
  rw [hdet, ok_bind]
  rw [show ∀ b : Bool, (false && b) = false from fun b => rfl]
  simp only [Bool.false_eq_true, ite_false, Bool.false_or, hfalsy]
  rw [rewriteProducts_false, ok_bind]
  rfl

/-- Witness for C7 on `mixedModel`: reactant in `c1`, product in `c2`,
derived bucket `"NONE"`. -/
theorem reaction_compartment_bucket_witness :
    ∃ det, get_reaction_details mixedModel "R" = .ok det ∧
      det.compartment = some (sharedCompartment
        (((mixedReaction.listOfReactants.getD []).map SpeciesRef.species ++
          (mixedReaction.listOfProducts.getD []).map SpeciesRef.species).map
          (fun sid => if sid = "A" then "c1" else "c2"))) ∧
      (det.allFalsy = false →
        diffReactionModel false ⟨[], [], []⟩ mixedModel "R" false =
          .ok ⟨det.compartment, det.reactants.zip det.reactantStoichs,
            det.products.zip det.productStoichs, [], false⟩) :=
  reaction_compartment_bucket mixedModel "R" mixedReaction ⟨some ⟨"k*A", []⟩⟩
    (fun sid => if sid = "A" then "c1" else "c2") rfl rfl
    (by
      intro sid hsid
      simp [mixedReaction] at hsid
      rcases hsid with rfl | rfl
      · exact ⟨rfl, by decide⟩
      · exact ⟨rfl, by decide⟩)

/-- A formatted regulatory-arrow string starts with the quote character. -/
theorem pyStrIndex_regArrowFormat (s rid d : String) :
    pyStrIndex (regArrowFormat s rid d) 0 = some "\"" := by
  unfold regArrowFormat pyStrIndex
  simp only [String.data_append, List.append_assoc, List.singleton_append,
    List.cons_append, List.getElem?_cons_zero, Option.map_some']

/-- Every string the ci loop of `get_regulatory_arrow` emits is the format
applied to a ci occurrence of the scanned kinetic law. -/
theorem regArrowsCis_shape (categorise : KineticLaw → String → String) (m : Model)
    (speciesIds : List String) (rid : String) (kl : KineticLaw)
    (cl : List String) (out : List String)
    (h : regArrowsCis categorise m speciesIds rid kl cl = .ok out) :
    ∀ x ∈ out, ∃ s ∈ cl, x = regArrowFormat s rid (categorise kl s) := by
  induction cl generalizing out with
  | nil =>
    unfold regArrowsCis at h
    injection h with h'
    subst h'
    intro x hx
    simp at hx
  | cons ci rest ih =>
    unfold regArrowsCis at h
    split at h
    · cases hdet : get_reaction_details m rid with
      | error e =>
        rw [hdet, error_bind] at h
        exact absurd h (by simp)
      | ok det =>
        rw [hdet, ok_bind] at h
        split at h
        · intro x hx
          obtain ⟨s, hs, hfmt⟩ := ih out h x hx
          exact ⟨s, by simp [hs], hfmt⟩
        · cases htail : regArrowsCis categorise m speciesIds rid kl rest with
          | error e =>
            rw [htail, error_bind] at h
            exact absurd h (by simp)
          | ok tail =>
            rw [htail, ok_bind] at h
            injection h with h'
            subst h'
            intro x hx
            rcases List.mem_cons.mp hx with hx | hx
            · exact ⟨ci, by simp, hx⟩
            · obtain ⟨s, hs, hfmt⟩ := ih tail htail x hx
              exact ⟨s, by simp [hs], hfmt⟩
    · intro x hx
      obtain ⟨s, hs, hfmt⟩ := ih out h x hx
      exact ⟨s, by simp [hs], hfmt⟩

/-- Every string the reaction loop of `get_regulatory_arrow` emits comes
from some reaction's kinetic law. -/
theorem regArrowsReactions_shape (categorise : KineticLaw → String → String) (m : Model)
    (speciesIds : List String) (rl : List Reaction) (out : List String)
    (h : regArrowsReactions categorise m speciesIds rl = .ok out) :
    ∀ x ∈ out, ∃ r ∈ rl, ∃ kl, r.kineticLaw = some kl ∧
      ∃ s ∈ kl.cis, x = regArrowFormat s r.id (categorise kl s) := by
  induction rl generalizing out with
  | nil =>
    unfold regArrowsReactions at h
    injection h with h'
    subst h'
    intro x hx
    simp at hx
  | cons r rest ih =>
    unfold regArrowsReactions at h
    split at h
    · exact absurd h (by simp)
    · rename_i kl hkl
      cases hhere : regArrowsCis categorise m speciesIds r.id kl kl.cis with
      | error e =>
        rw [hhere, error_bind] at h
        exact absurd h (by simp)
      | ok here =>
        rw [hhere, ok_bind] at h
        cases htail : regArrowsReactions categorise m speciesIds rest with
        | error e =>
          rw [htail, error_bind] at h
          exact absurd h (by simp)
        | ok tail =>
          rw [htail, ok_bind] at h
          injection h with h'
          subst h'
          intro x hx
          rcases List.mem_append.mp hx with hx | hx
          · obtain ⟨s, hs, hfmt⟩ := regArrowsCis_shape categorise m speciesIds r.id kl
              kl.cis here hhere x hx
            exact ⟨r, by simp, kl, hkl, s, hs, hfmt⟩
          · obtain ⟨r', hr', rest'⟩ := ih tail htail x hx
            exact ⟨r', by simp [hr'], rest'⟩

/-- C8 (amended): the regulatory-arrow accessor returns one formatted
string `"source" -> "target" -direction` per `ci` occurrence of a
non-reactant species id inside a reaction's kinetic law, the direction
coming from the external classifier; consequently the diff driver's
`arrow[0]` indexing yields the quote character of that string — the
components of the claimed triple are never delivered separately. -/
theorem regulatory_arrow_shape (categorise : KineticLaw → String → String)
    (m : Model) (c : String) (arrows : List String) (a : String)
    (h : get_regulatory_arrow categorise m c = .ok arrows) (ha : a ∈ arrows) :
    (∃ r ∈ m.listOfReactions.getD [], ∃ kl, r.kineticLaw = some kl ∧
      ∃ s ∈ kl.cis, a = regArrowFormat s r.id (categorise kl s)) ∧
    pyStrIndex a 0 = some "\"" := by
  unfold get_regulatory_arrow at h
  cases hsp : get_species m c with
  | error e =>
    rw [hsp, error_bind] at h
    exact absurd h (by simp)
  | ok speciesIds =>
    rw [hsp, ok_bind] at h
    cases hml : m.listOfReactions with
    | none =>
      rw [hml] at h
      exact absurd h (by simp)
    | some rl =>
      rw [hml] at h
      obtain ⟨r, hr, kl, hkl, s, hs, hfmt⟩ :=
        regArrowsReactions_shape categorise m speciesIds rl arrows h a ha
      refine ⟨⟨r, by simp [hml, hr], kl, hkl, s, hs, hfmt⟩, ?_⟩
      rw [hfmt]
      exact pyStrIndex_regArrowFormat s r.id (categorise kl s)

/-- Witness for C8 on `regModel`: the one arrow the accessor returns is the
formatted string, whose first character is the quote. -/
theorem regulatory_arrow_shape_witness :
    (∃ r ∈ regModel.listOfReactions.getD [], ∃ kl, r.kineticLaw = some kl ∧
      ∃ s ∈ kl.cis, "\"A\" -> \"R\" -monotonic_increasing" =
        regArrowFormat s r.id (constIncreasing kl s)) ∧
    pyStrIndex "\"A\" -> \"R\" -monotonic_increasing" 0 = some "\"" :=
  regulatory_arrow_shape constIncreasing regModel "c"
    ["\"A\" -> \"R\" -monotonic_increasing"] "\"A\" -> \"R\" -monotonic_increasing"
    rfl (by simp)

/-- The value-update map of `addStatus` does not change the entries of any
other key. -/
theorem statusLookup_mapUpdate_ne (st : List (String × List Nat)) (eid k : String)
    (i : Nat) (hk : k ≠ eid) :
    statusLookup (st.map (fun kv => if kv.1 == eid then (kv.1, kv.2 ++ [i]) else kv)) k =
      statusLookup st k := by
  induction st with
  | nil => rfl
  | cons a tl ih =>
    unfold statusLookup at ih ⊢
    simp only [List.map_cons, List.find?_cons]
    by_cases hae : a.1 = eid
    · have h1 : (a.1 == eid) = true := by simp [hae]
      have h2 : (a.1 == k) = false := beq_eq_false_iff_ne.mpr (hae ▸ Ne.symm hk)
      simp only [h1, if_true, h2, Bool.false_eq_true, if_false]
      exact ih
    · have h1 : (a.1 == eid) = false := beq_eq_false_iff_ne.mpr hae
      simp only [h1, Bool.false_eq_true, if_false]
      by_cases hak : a.1 = k
      · have h2 : (a.1 == k) = true := by simp [hak]
        simp [h2]
      · have h2 : (a.1 == k) = false := beq_eq_false_iff_ne.mpr hak
        simp only [h2, Bool.false_eq_true, if_false]
        exact ih

/-- When an entry for the key exists, the value-update map of `addStatus`
appends the model index to the looked-up list. -/
theorem statusLookup_mapUpdate_eq (st : List (String × List Nat)) (eid : String)
    (i : Nat) (hany : st.any (fun kv => kv.1 == eid) = true) :
    statusLookup (st.map (fun kv => if kv.1 == eid then (kv.1, kv.2 ++ [i]) else kv)) eid =
      statusLookup st eid ++ [i] := by
  induction st with
  | nil => simp at hany
  | cons a tl ih =>
    unfold statusLookup at ih ⊢
    simp only [List.map_cons, List.find?_cons]
    by_cases hae : a.1 = eid
    · have h1 : (a.1 == eid) = true := by simp [hae]
      simp [h1]
    · have h1 : (a.1 == eid) = false := beq_eq_false_iff_ne.mpr hae
      simp only [h1, Bool.false_eq_true, if_false]
      simp only [List.any_cons, h1, Bool.false_or] at hany
      exact ih hany

/-- `addStatus` appends the model index to the key's looked-up list and
leaves every other key unchanged. -/
theorem statusLookup_addStatus (st : List (String × List Nat)) (eid k : String) (i : Nat) :
    statusLookup (addStatus st eid i) k =
      if k = eid then statusLookup st k ++ [i] else statusLookup st k := by
  unfold addStatus
  by_cases hany : st.any (fun kv => kv.1 == eid) = true
  · rw [if_pos hany]
    by_cases hk : k = eid
    · subst hk
      rw [if_pos rfl]
      exact statusLookup_mapUpdate_eq st k i hany
    · rw [if_neg hk]
      exact statusLookup_mapUpdate_ne st eid k i hk
  · rw [if_neg hany]
    have hnone : st.find? (fun kv => kv.1 == eid) = none := by
      rw [List.find?_eq_none]
      intro x hx
      intro hbeq
      exact hany (List.any_eq_true.mpr ⟨x, hx, hbeq⟩)
    unfold statusLookup
    rw [List.find?_append]
    by_cases hk : k = eid
    · subst hk
      rw [hnone]
      simp [List.find?_cons]
    · have h2 : (eid == k) = false := beq_eq_false_iff_ne.mpr (Ne.symm hk)
      rw [if_neg hk]
      simp [List.find?_cons, h2]

/-- The fold of `event_status` appends, per key, the model indices of its
insertions in order. -/
theorem statusLookup_eventStatusGo (ins : List (String × Nat))
    (st : List (String × List Nat)) (k : String) :
    statusLookup (eventStatusGo st ins) k =
      statusLookup st k ++ (ins.filter (fun p => p.1 == k)).map Prod.snd := by
  induction ins generalizing st with
  | nil => simp [eventStatusGo]
  | cons p rest ih =>
    obtain ⟨eid, i⟩ := p
    unfold eventStatusGo
    rw [ih, statusLookup_addStatus]
    rw [List.filter_cons]
    by_cases hk : k = eid
    · subst hk
      have hbeq : (k == k) = true := by simp
      simp only [hbeq, if_true, if_pos rfl, List.map_cons, List.append_assoc,
        List.singleton_append]
    · have hbeq : (eid == k) = false := beq_eq_false_iff_ne.mpr (Ne.symm hk)
      simp only [hbeq, Bool.false_eq_true, if_false, if_neg hk]

/-- Filtering one model's insertions for a key leaves one replicated model
index per matching event id. -/
theorem insertions_filter_count (ids : List String) (i : Nat) (k : String) :
    ((ids.map (fun eid => (eid, i))).filter (fun p => p.1 == k)).map Prod.snd =
      List.replicate (ids.count k) i := by
  induction ids with
  | nil => rfl
  | cons e rest ih =>
    simp only [List.map_cons, List.filter_cons, List.count_cons]
    by_cases he : (e == k) = true
    · simp only [he, if_true, List.map_cons, ih, List.replicate_succ]
    · have he' : (e == k) = false := by revert he; cases (e == k) <;> simp
      simp only [he', Bool.false_eq_true, if_false, ih, Nat.add_zero]

/-- With explicit event ids, the effective-id list's count of an id is the
number of events carrying it, independent of model index and position. -/
theorem count_eventIdsGo (evs : List Event) (eid : String) (i : Nat)
    (hx : ∀ e ∈ evs, e.id.isSome = true) :
    ∀ pos, (eventIdsGo i pos evs).count eid =
      (evs.filter (fun e => e.id == some eid)).length := by
  induction evs with
  | nil => intro pos; rfl
  | cons e rest ih =>
    intro pos
    obtain ⟨v, hv⟩ := Option.isSome_iff_exists.mp (hx e (by simp))
    have hat : eventIdAt i pos e = v := by unfold eventIdAt; rw [hv]; rfl
    unfold eventIdsGo
    rw [List.count_cons, hat, List.filter_cons]
    have hbeq : (e.id == some eid) = (v == eid) := by rw [hv]; rfl
    rw [hbeq, ih (fun e' he' => hx e' (by simp [he'])) (pos + 1)]
    by_cases hveq : (v == eid) = true
    · simp [hveq]
    · have hveq' : (v == eid) = false := by revert hveq; cases (v == eid) <;> simp
      simp [hveq']

/-- With explicit event ids, a model's effective-id count of an id is
`eventIdCount`, whatever the model's index. -/
theorem count_modelEventIds (m : Model) (eid : String) (i : Nat)
    (hx : ∀ e ∈ m.listOfEvents.getD [], e.id.isSome = true) :
    (modelEventIds i m).count eid = eventIdCount m eid := by
  unfold modelEventIds eventIdCount
  cases hev : m.listOfEvents with
  | none => rfl
  | some evs =>
    rw [hev] at hx
    exact count_eventIdsGo evs eid i hx 0

/-- The model set `event_status` records for a key over a pair of models:
the first model's occurrences as index 0, then the second's as index 1. -/
theorem statusModels_pair (x y : Model) (eid : String)
    (hx : ∀ e ∈ x.listOfEvents.getD [], e.id.isSome = true)
    (hy : ∀ e ∈ y.listOfEvents.getD [], e.id.isSome = true) :
    statusModels [x, y] eid =
      List.replicate (eventIdCount x eid) 0 ++ List.replicate (eventIdCount y eid) 1 := by
  unfold statusModels event_status eventInsertions
  unfold eventInsertionsGo eventInsertionsGo eventInsertionsGo
  rw [statusLookup_eventStatusGo]
  rw [show statusLookup [] eid = [] from rfl]
  rw [List.nil_append, List.append_nil, List.filter_append, List.map_append]
  rw [insertions_filter_count, insertions_filter_count]
  rw [count_modelEventIds x eid 0 hx, count_modelEventIds y eid (0 + 1) hy]

/-- C9 (amended): permuting the two inputs relabels model indices but
records the same facts — for every event id the recorded model set of the
swapped run is the swapped run's set relabelled through the transposition
(the two characterizations make the sets explicit) — while, per the
counterexample, attributes chosen by first-seen presentation order (an
event's display name) can genuinely change. -/
theorem event_status_swap_equivariant (a b : Model) (eid : String)
    (ha : ∀ e ∈ a.listOfEvents.getD [], e.id.isSome = true)
    (hb : ∀ e ∈ b.listOfEvents.getD [], e.id.isSome = true) :
    statusModels [a, b] eid =
      List.replicate (eventIdCount a eid) 0 ++ List.replicate (eventIdCount b eid) 1 ∧
    statusModels [b, a] eid =
      List.replicate (eventIdCount b eid) 0 ++ List.replicate (eventIdCount a eid) 1 ∧
    (statusModels [a, b] eid).Perm ((statusModels [b, a] eid).map (fun i => 1 - i)) := by
  have h1 := statusModels_pair a b eid ha hb
  have h2 := statusModels_pair b a eid hb ha
  refine ⟨h1, h2, ?_⟩
  rw [h1, h2, List.map_append, List.map_replicate, List.map_replicate]
  exact List.perm_append_comm

/-- Witness for C9 on the two named-event documents. -/
theorem event_status_swap_equivariant_witness :
    statusModels [namedEventModel "foo", namedEventModel "bar"] "E" =
      List.replicate (eventIdCount (namedEventModel "foo") "E") 0 ++
        List.replicate (eventIdCount (namedEventModel "bar") "E") 1 ∧
    statusModels [namedEventModel "bar", namedEventModel "foo"] "E" =
      List.replicate (eventIdCount (namedEventModel "bar") "E") 0 ++
        List.replicate (eventIdCount (namedEventModel "foo") "E") 1 ∧
    (statusModels [namedEventModel "foo", namedEventModel "bar"] "E").Perm
      ((statusModels [namedEventModel "bar", namedEventModel "foo"] "E").map
        (fun i => 1 - i)) :=
  event_status_swap_equivariant (namedEventModel "foo") (namedEventModel "bar") "E"
    (by intro e he; simp [namedEventModel] at he; subst he; rfl)
    (by intro e he; simp [namedEventModel] at he; subst he; rfl)

/-- A key present in the association list is found by the dict lookup. -/
theorem dictGet?_of_key_mem (l : List (String × String)) (k v : String)
    (h : (k, v) ∈ l) : ∃ d, dictGet? l k = some d := by
  unfold dictGet?
  have hrev : (k, v) ∈ l.reverse := List.mem_reverse.mpr h
  have hsome : (l.reverse.find? (fun kv => kv.1 == k)).isSome = true :=
    List.find?_isSome.mpr ⟨(k, v), hrev, by simp⟩
  obtain ⟨kv, hkv⟩ := Option.isSome_iff_exists.mp hsome
  exact ⟨kv.2, by rw [hkv]; rfl⟩

/-- The elision loop records a species as elided only together with a
downstream entry for it. -/
theorem elideLoop_pairing (models : List Model) (nonInts : List String)
    (rs : List Reaction) (st : ModelElision)
    (h : elideLoop models nonInts rs = .ok st) :
    ∀ s ∈ st.elidedList, ∃ p, (s, p) ∈ st.downstreamSpecies := by
  induction rs generalizing st with
  | nil =>
    unfold elideLoop at h
    injection h with h'
    subst h'
    intro s hs
    simp at hs
  | cons r rest ih =>
    unfold elideLoop at h
    cases hc : elideCandidate models nonInts r with
    | error e => rw [hc, error_bind] at h; exact absurd h (by simp)
    | ok c =>
      rw [hc, ok_bind] at h
      cases hl : elideLoop models nonInts rest with
      | error e => rw [hl, error_bind] at h; exact absurd h (by simp)
      | ok st' =>
        rw [hl, ok_bind] at h
        cases c with
        | none =>
          injection h with h'
          subst h'
          exact ih st' hl
        | some sp =>
          obtain ⟨s0, p0⟩ := sp
          injection h with h'
          subst h'
          intro s hs
          rcases List.mem_cons.mp hs with hs | hs
          · subst hs
            exact ⟨p0, by simp⟩
          · obtain ⟨p, hp⟩ := ih st' hl s hs
            exact ⟨p, by simp [hp]⟩

/-- Indexing `find_downstream_species_all`: the i-th output is the per-model
elision data of the i-th input. -/
theorem fds_all_index (models : List Model) (l : List Model) (sts : List ModelElision)
    (h : find_downstream_species_all models l = .ok sts) (i : Nat) (m : Model)
    (st : ModelElision) (hm : l[i]? = some m) (hst : sts[i]? = some st) :
    findDownstreamOne models m = .ok st := by
  induction l generalizing i sts with
  | nil => simp at hm
  | cons m0 rest ih =>
    unfold find_downstream_species_all at h
    cases h0 : findDownstreamOne models m0 with
    | error e => rw [h0, error_bind] at h; exact absurd h (by simp)
    | ok st0 =>
      rw [h0, ok_bind] at h
      cases htail : find_downstream_species_all models rest with
      | error e => rw [htail, error_bind] at h; exact absurd h (by simp)
      | ok tail =>
        rw [htail, ok_bind] at h
        injection h with h'
        subst h'
        cases i with
        | zero =>
          simp only [List.getElem?_cons_zero] at hm hst
          injection hm with hm'
          injection hst with hst'
          subst hm' hst'
          exact h0
        | succ i' =>
          simp only [List.getElem?_cons_succ] at hm hst
          exact ih tail htail i' hm hst

/-- Every pair the cartoon product rewriting emits comes from an original
product pair through one `rewriteSpecies` step. -/
theorem rewriteProducts_shape (st : ModelElision) (pairs prods : List (String × String))
    (h : rewriteProducts true st pairs = .ok prods) :
    ∀ q ∈ prods, ∃ p0, (p0, q.2) ∈ pairs ∧ rewriteSpecies st p0 = some q.1 := by
  induction pairs generalizing prods with
  | nil =>
    unfold rewriteProducts at h
    injection h with h'
    subst h'
    intro q hq
    simp at hq
  | cons pq rest ih =>
    obtain ⟨p, stoich⟩ := pq
    unfold rewriteProducts at h
    cases hcont : st.elidedList.contains p with
    | true =>
      rw [show (true && st.elidedList.contains p) = true by rw [hcont]; rfl] at h
      simp only [if_true] at h
      cases hdg : dictGet? st.downstreamSpecies p with
      | none =>
        rw [hdg] at h
        simp only [] at h
        rw [error_bind] at h
        exact absurd h (by simp)
      | some d =>
        rw [hdg] at h
        simp only [] at h
        rw [ok_bind] at h
        cases htail : rewriteProducts true st rest with
        | error e => rw [htail, error_bind] at h; exact absurd h (by simp)
        | ok tail =>
          rw [htail, ok_bind] at h
          injection h with h'
          subst h'
          intro q hq
          rcases List.mem_cons.mp hq with hq | hq
          · subst hq
            refine ⟨p, by simp, ?_⟩
            unfold rewriteSpecies
            rw [hcont, if_pos rfl, hdg]
          · obtain ⟨p0, hp0, hq0⟩ := ih tail htail q hq
            exact ⟨p0, by simp [hp0], hq0⟩
    | false =>
      rw [show (true && st.elidedList.contains p) = false by rw [hcont]; rfl] at h
      simp only [Bool.false_eq_true, if_false] at h
      rw [ok_bind] at h
      cases htail : rewriteProducts true st rest with
      | error e => rw [htail, error_bind] at h; exact absurd h (by simp)
      | ok tail =>
        rw [htail, ok_bind] at h
        injection h with h'
        subst h'
        intro q hq
        rcases List.mem_cons.mp hq with hq | hq
        · subst hq
          refine ⟨p, by simp, ?_⟩
          unfold rewriteSpecies
          rw [hcont]
          simp
        · obtain ⟨p0, hp0, hq0⟩ := ih tail htail q hq
          exact ⟨p0, by simp [hp0], hq0⟩

/-- C3 (amended): the elision planner records each elided input species
together with its downstream mapping — the mapping therefore always
exists — and in cartoon mode `diff_reaction` rewrites product-arrow
references through one `rewriteSpecies` step before insertion, while
reactant-arrow references are inserted verbatim, unrewritten (a reaction
whose sole reactant is elided is skipped wholesale instead, but a
multi-reactant reaction can still insert an arrow naming an elided
species, as the counterexample shows). -/
theorem cartoon_product_rewrite (models : List Model) (sts : List ModelElision)
    (i : Nat) (st : ModelElision) (m : Model) (rid : String) (isT0 : Bool)
    (out : ModelReactionDiff)
    (h : find_downstream_species models = .ok sts)
    (hm : models[i]? = some m) (hst : sts[i]? = some st)
    (hd : diffReactionModel true st m rid isT0 = .ok out) :
    (∀ s ∈ st.elidedList, ∃ d, dictGet? st.downstreamSpecies s = some d) ∧
    (∀ q ∈ out.productArrows ++ out.transcriptionProductArrows,
      ∃ det, get_reaction_details m rid = .ok det ∧
        ∃ p0, (p0, q.2) ∈ det.products.zip det.productStoichs ∧
          rewriteSpecies st p0 = some q.1) ∧
    (∀ q ∈ out.reactantArrows,
      ∃ det, get_reaction_details m rid = .ok det ∧
        q ∈ det.reactants.zip det.reactantStoichs) := by
  constructor
  · have hone : findDownstreamOne models m = .ok st :=
      fds_all_index models models sts h i m st hm hst
    unfold findDownstreamOne at hone
    intro s hs
    obtain ⟨p, hp⟩ := elideLoop_pairing models (non_intermediates m)
      (m.listOfReactions.getD []) st hone s hs
    exact dictGet?_of_key_mem st.downstreamSpecies s p hp
  · unfold diffReactionModel at hd
    cases hfind : (m.listOfReactions.getD []).find? (fun r => r.id == rid) with
    | none =>
      rw [hfind] at hd
      injection hd with hd'
      subst hd'
      exact ⟨fun q hq => by simp at hq, fun q hq => by simp at hq⟩
    | some reaction =>
      rw [hfind] at hd
      simp only [] at hd
      cases hdet : get_reaction_details m rid with
      | error e =>
        rw [hdet, error_bind] at hd
        exact absurd hd (by simp)
      | ok det =>
        rw [hdet, ok_bind] at hd
        split at hd
        · injection hd with hd'
          subst hd'
          exact ⟨fun q hq => by simp at hq, fun q hq => by simp at hq⟩
        · split at hd
          · injection hd with hd'
            subst hd'
            exact ⟨fun q hq => by simp at hq, fun q hq => by simp at hq⟩
          · cases hrw : rewriteProducts true st (det.products.zip det.productStoichs) with
            | error e => rw [hrw, error_bind] at hd; exact absurd hd (by simp)
            | ok prods =>
              rw [hrw, ok_bind] at hd
              have hshape := rewriteProducts_shape st _ prods hrw
              split at hd <;> injection hd with hd' <;> subst hd'
              · refine ⟨?_, ?_⟩
                · intro q hq
                  simp only [List.nil_append] at hq
                  obtain ⟨p0, hp0, hq0⟩ := hshape q hq
                  exact ⟨det, rfl, p0, hp0, hq0⟩
                · intro q hq
                  exact ⟨det, rfl, hq⟩
              · refine ⟨?_, ?_⟩
                · intro q hq
                  simp only [List.append_nil] at hq
                  obtain ⟨p0, hp0, hq0⟩ := hshape q hq
                  exact ⟨det, rfl, p0, hp0, hq0⟩
                · intro q hq
                  exact ⟨det, rfl, hq⟩

/-- Witness for C3 on `cartoonModel`'s reaction `R2`. -/
theorem cartoon_product_rewrite_witness :
    (∀ s ∈ cartoonElision.elidedList,
      ∃ d, dictGet? cartoonElision.downstreamSpecies s = some d) ∧
    (∀ q ∈ ([("Y", "")] : List (String × String)) ++ ([] : List (String × String)),
      ∃ det, get_reaction_details cartoonModel "R2" = .ok det ∧
        ∃ p0, (p0, q.2) ∈ det.products.zip det.productStoichs ∧
          rewriteSpecies cartoonElision p0 = some q.1) ∧
    (∀ q ∈ ([("mRNA", ""), ("X", "")] : List (String × String)),
      ∃ det, get_reaction_details cartoonModel "R2" = .ok det ∧
        q ∈ det.reactants.zip det.reactantStoichs) :=
  cartoon_product_rewrite [cartoonModel] [cartoonElision] 0 cartoonElision
    cartoonModel "R2" false
    ⟨some "c", [("mRNA", ""), ("X", "")], [("Y", "")], [], false⟩
    rfl rfl rfl rfl

/-- `List.contains` on strings decides membership. -/
theorem contains_iff_mem (l : List String) (a : String) :
    l.contains a = true ↔ a ∈ l := List.elem_iff

/-- After a first kinetic law is seen, the scan stays non-`different` iff
every law recorded for the remaining models equals it. -/
theorem rateLawScan_law (rid : String) (l0 : MathExpr) (ms : List Model)
    (v : RateScan) (h : rateLawScan rid (.law l0) ms = .ok v) :
    (v ≠ .different ↔ ∀ l ∈ reactionRateLaws ms rid, l = l0) := by
  induction ms generalizing v with
  | nil =>
    unfold rateLawScan at h
    injection h with h'
    subst h'
    simp [reactionRateLaws]
  | cons m rest ih =>
    unfold rateLawScan at h
    unfold reactionRateLaws
    simp only [List.flatMap_cons]
    cases hml : m.listOfReactions with
    | none => rw [hml] at h; exact absurd h (by simp)
    | some rl =>
      rw [hml] at h
      simp only [] at h
      simp only [Option.getD_some]
      cases hf : rl.find? (fun r => r.id == rid) with
      | none =>
        rw [hf] at h
        simp only [] at h
        simp only [hf, List.nil_append]
        exact ih v h
      | some r =>
        rw [hf] at h
        simp only [] at h
        cases hkl : r.kineticLaw with
        | none => rw [hkl] at h; exact absurd h (by simp)
        | some kl =>
          rw [hkl] at h
          simp only [] at h
          cases hmath : kl.math with
          | none =>
            rw [hmath] at h
            simp only [] at h
            simp only [hf, hkl, Option.some_bind, hmath, Option.toList_none, List.nil_append]
            exact ih v h
          | some l =>
            rw [hmath] at h
            simp only [] at h
            simp only [hf, hkl, Option.some_bind, hmath, Option.toList_some,
              List.singleton_append, List.mem_cons]
            by_cases hll : l0 = l
            · rw [if_pos hll] at h
              subst hll
              rw [ih v h]
              constructor
              · intro hall l' hl'
                rcases hl' with hl' | hl'
                · exact hl'.symm ▸ rfl
                · exact hall l' hl'
              · intro hall l' hl'
                exact hall l' (Or.inr hl')
            · rw [if_neg hll] at h
              injection h with h'
              subst h'
              constructor
              · intro hne
                exact absurd rfl hne
              · intro hall
                exact absurd (hall l (Or.inl rfl)).symm hll

/-- From the empty start, the scan stays non-`different` iff all recorded
laws for the reaction are pairwise equal. -/
theorem rateLawScan_empty (rid : String) (ms : List Model) (v : RateScan)
    (h : rateLawScan rid .empty ms = .ok v) :
    (v ≠ .different ↔
      ∀ l1 ∈ reactionRateLaws ms rid, ∀ l2 ∈ reactionRateLaws ms rid, l1 = l2) := by
  induction ms generalizing v with
  | nil =>
    unfold rateLawScan at h
    injection h with h'
    subst h'
    simp [reactionRateLaws]
  | cons m rest ih =>
    unfold rateLawScan at h
    unfold reactionRateLaws
    simp only [List.flatMap_cons]
    cases hml : m.listOfReactions with
    | none => rw [hml] at h; exact absurd h (by simp)
    | some rl =>
      rw [hml] at h
      simp only [] at h
      simp only [Option.getD_some]
      cases hf : rl.find? (fun r => r.id == rid) with
      | none =>
        rw [hf] at h
        simp only [] at h
        simp only [hf, List.nil_append]
        exact ih v h
      | some r =>
        rw [hf] at h
        simp only [] at h
        cases hkl : r.kineticLaw with
        | none => rw [hkl] at h; exact absurd h (by simp)
        | some kl =>
          rw [hkl] at h
          simp only [] at h
          cases hmath : kl.math with
          | none =>
            rw [hmath] at h
            simp only [] at h
            simp only [hf, hkl, Option.some_bind, hmath, Option.toList_none, List.nil_append]
            exact ih v h
          | some l =>
            rw [hmath] at h
            simp only [] at h
            simp only [hf, hkl, Option.some_bind, hmath, Option.toList_some,
              List.singleton_append, List.mem_cons]
            rw [rateLawScan_law rid l rest v h]
            constructor
            · intro hall l1 hl1 l2 hl2
              rcases hl1 with hl1 | hl1 <;> rcases hl2 with hl2 | hl2
              · rw [hl1, hl2]
              · rw [hl1, hall l2 hl2]
              · rw [hl2, hall l1 hl1]
              · rw [hall l1 hl1, hall l2 hl2]
            · intro hpair l' hl'
              exact hpair l' (Or.inr hl') l (Or.inl rfl)

/-- The elision loop's success and membership characterization: a reaction
was recorded as elided iff it occurs in the scanned list and its
candidate test produced a `(input, downstream)` pair. -/
theorem elideLoop_mem (models : List Model) (nonInts : List String)
    (rs : List Reaction) (st : ModelElision)
    (h : elideLoop models nonInts rs = .ok st) :
    (∀ r ∈ rs, ∃ c, elideCandidate models nonInts r = .ok c) ∧
    (∀ r, r ∈ st.elidedReactions ↔
      r ∈ rs ∧ ∃ sp, elideCandidate models nonInts r = .ok (some sp)) := by
  induction rs generalizing st with
  | nil =>
    unfold elideLoop at h
    injection h with h'
    subst h'
    exact ⟨fun r hr => by simp at hr, fun r => by simp⟩
  | cons r0 rest ih =>
    unfold elideLoop at h
    cases hc : elideCandidate models nonInts r0 with
    | error e => rw [hc, error_bind] at h; exact absurd h (by simp)
    | ok c =>
      rw [hc, ok_bind] at h
      cases hl : elideLoop models nonInts rest with
      | error e => rw [hl, error_bind] at h; exact absurd h (by simp)
      | ok st' =>
        rw [hl, ok_bind] at h
        obtain ⟨ihs, ihm⟩ := ih st' hl
        have hsucc : ∀ r ∈ r0 :: rest, ∃ c', elideCandidate models nonInts r = .ok c' := by
          intro r hrm
          rcases List.mem_cons.mp hrm with hrm | hrm
          · exact ⟨c, hrm ▸ hc⟩
          · exact ihs r hrm
        cases c with
        | none =>
          injection h with h'
          subst h'
          refine ⟨hsucc, fun r => ?_⟩
          rw [ihm r]
          constructor
          · rintro ⟨hmem, sp, hsp⟩
            exact ⟨List.mem_cons.mpr (Or.inr hmem), sp, hsp⟩
          · rintro ⟨hmem, sp, hsp⟩
            rcases List.mem_cons.mp hmem with hmem | hmem
            · subst hmem
              rw [hc] at hsp
              injection hsp with hsp'
              exact absurd hsp' (by simp)
            · exact ⟨hmem, sp, hsp⟩
        | some sp0 =>
          obtain ⟨s0, p0⟩ := sp0
          injection h with h'
          subst h'
          refine ⟨hsucc, fun r => ?_⟩
          simp only [List.mem_cons]
          constructor
          · intro hmem
            rcases hmem with hmem | hmem
            · exact ⟨Or.inl hmem, (s0, p0), hmem ▸ hc⟩
            · obtain ⟨hmem', sp, hsp⟩ := (ihm r).mp hmem
              exact ⟨Or.inr hmem', sp, hsp⟩
          · rintro ⟨hmem, sp, hsp⟩
            rcases hmem with hmem | hmem
            · exact Or.inl hmem
            · exact Or.inr ((ihm r).mpr ⟨hmem, sp, hsp⟩)

/-- The candidate test elides a reaction iff exactly the claimed conditions
hold: translation tag, agreeing cross-model rate laws, a sole combined
modifier/reactant species outside `nonInts`, and a sole remaining product
after removing reactant-equal self-loops. -/
theorem elideCandidate_char (models : List Model) (nonInts : List String)
    (r : Reaction) (c : Option (String × String))
    (h : elideCandidate models nonInts r = .ok c) :
    ((∃ sp, c = some sp) ↔
      (r.sboTerm = some "SBO:0000184" ∧
       (∀ l1 ∈ reactionRateLaws models r.id, ∀ l2 ∈ reactionRateLaws models r.id, l1 = l2) ∧
       ∃ s, r.listOfModifiers.getD [] ++
           (r.listOfReactants.getD []).map SpeciesRef.species = [s] ∧
         s ∉ nonInts ∧
         (((r.listOfProducts.getD []).map SpeciesRef.species).filter
           (fun p => p != s)).length = 1)) := by
  unfold elideCandidate at h
  by_cases hsbo : r.sboTerm = some "SBO:0000184"
  · rw [if_neg (show ¬ r.sboTerm ≠ some "SBO:0000184" from fun hne => hne hsbo)] at h
    cases hscan : rateLawScan r.id RateScan.empty models with
    | error e => rw [hscan, error_bind] at h; exact absurd h (by simp)
    | ok v =>
      rw [hscan, ok_bind] at h
      have hpair := rateLawScan_empty r.id models v hscan
      by_cases hv : v = RateScan.different
      · rw [if_pos hv] at h
        injection h with h'
        subst h'
        constructor
        · rintro ⟨sp, hsp⟩
          simp at hsp
        · rintro ⟨_, hlaws, _⟩
          exact absurd hv (hpair.mpr hlaws)
      · rw [if_neg hv] at h
        simp only [] at h
        have hlaws := hpair.mp hv
        cases hrms : r.listOfModifiers.getD [] ++
            (r.listOfReactants.getD []).map SpeciesRef.species with
        | nil =>
          rw [hrms] at h
          simp only [] at h
          injection h with h'
          subst h'
          constructor
          · rintro ⟨sp, hsp⟩
            simp at hsp
          · rintro ⟨_, _, s, hs, _, _⟩
            simp at hs
        | cons s tail =>
          cases tail with
          | nil =>
            rw [hrms] at h
            simp only [] at h
            cases hcont : nonInts.contains s with
            | true =>
              rw [hcont] at h
              simp only [if_true] at h
              injection h with h'
              subst h'
              constructor
              · rintro ⟨sp, hsp⟩
                simp at hsp
              · rintro ⟨_, _, s', hs', hnm, _⟩
                injection hs' with hs1 _
                subst hs1
                exact absurd ((contains_iff_mem _ _).mp hcont) hnm
            | false =>
              rw [hcont] at h
              simp only [Bool.false_eq_true, if_false] at h
              have hnm : s ∉ nonInts := fun hmem =>
                by rw [(contains_iff_mem nonInts s).mpr hmem] at hcont; exact absurd hcont (by simp)
              cases hp : ((r.listOfProducts.getD []).map SpeciesRef.species).filter
                  (fun p => p != s) with
              | nil =>
                rw [hp] at h
                simp only [] at h
                injection h with h'
                subst h'
                constructor
                · rintro ⟨sp, hsp⟩
                  simp at hsp
                · rintro ⟨_, _, s', hs', _, hlen⟩
                  injection hs' with hs1 _
                  subst hs1
                  rw [hp] at hlen
                  simp at hlen
              | cons p tail2 =>
                cases tail2 with
                | nil =>
                  rw [hp] at h
                  simp only [] at h
                  injection h with h'
                  subst h'
                  constructor
                  · intro _
                    exact ⟨hsbo, hlaws, s, rfl, hnm, by rw [hp]; rfl⟩
                  · intro _
                    exact ⟨(s, p), rfl⟩
                | cons p2 tail3 =>
                  rw [hp] at h
                  simp only [] at h
                  injection h with h'
                  subst h'
                  constructor
                  · rintro ⟨sp, hsp⟩
                    simp at hsp
                  · rintro ⟨_, _, s', hs', _, hlen⟩
                    injection hs' with hs1 _
                    subst hs1
                    rw [hp] at hlen
                    simp at hlen
          | cons s2 tail2 =>
            rw [hrms] at h
            simp only [] at h
            injection h with h'
            subst h'
            constructor
            · rintro ⟨sp, hsp⟩
              simp at hsp
            · rintro ⟨_, _, s', hs', _, _⟩
              simp at hs'
  · rw [if_pos hsbo] at h
    injection h with h'
    subst h'
    constructor
    · rintro ⟨sp, hsp⟩
      simp at hsp
    · rintro ⟨h184, _⟩
      exact absurd h184 hsbo

/-- Membership in `non_intermediates`: exactly the reactant and modifier
species of reactions not tagged translation or degradation. -/
theorem non_intermediates_mem (m : Model) (s : String) :
    s ∈ non_intermediates m ↔
      ∃ r' ∈ m.listOfReactions.getD [],
        ¬ (r'.sboTerm = some "SBO:0000184" ∨ r'.sboTerm = some "SBO:0000179") ∧
        (s ∈ (r'.listOfReactants.getD []).map SpeciesRef.species ∨
          s ∈ r'.listOfModifiers.getD []) := by
  unfold non_intermediates
  rw [List.mem_flatMap]
  constructor
  · rintro ⟨r', hr', hs⟩
    by_cases hc : r'.sboTerm = some "SBO:0000184" ∨ r'.sboTerm = some "SBO:0000179"
    · rw [if_pos hc] at hs
      simp at hs
    · rw [if_neg hc] at hs
      exact ⟨r', hr', hc, List.mem_append.mp hs⟩
  · rintro ⟨r', hr', hc, hs⟩
    refine ⟨r', hr', ?_⟩
    rw [if_neg hc]
    exact List.mem_append.mpr hs

/-- C2: a reaction is recorded as elidable by `find_downstream_species`
iff its `sboTerm` tags it as translation, its recorded kinetic laws agree
across every model containing it, it has exactly one combined
modifier/reactant species, that species is outside the model's
`non_intermediates`, and exactly one product remains after removing
reactant-equal self-loops; and `non_intermediates` is exactly the set of
species appearing as a reactant or modifier of a reaction not tagged
translation or degradation. -/
theorem find_downstream_elidable_iff
    (models : List Model) (sts : List ModelElision) (i : Nat) (st : ModelElision)
    (m : Model) (r : Reaction)
    (h : find_downstream_species models = .ok sts)
    (hm : models[i]? = some m) (hst : sts[i]? = some st)
    (hr : r ∈ m.listOfReactions.getD []) :
    (r ∈ st.elidedReactions ↔
      (r.sboTerm = some "SBO:0000184" ∧
       (∀ l1 ∈ reactionRateLaws models r.id, ∀ l2 ∈ reactionRateLaws models r.id, l1 = l2) ∧
       ∃ s, r.listOfModifiers.getD [] ++
           (r.listOfReactants.getD []).map SpeciesRef.species = [s] ∧
         s ∉ non_intermediates m ∧
         (((r.listOfProducts.getD []).map SpeciesRef.species).filter
           (fun p => p != s)).length = 1)) ∧
    (∀ s, s ∈ non_intermediates m ↔
      ∃ r' ∈ m.listOfReactions.getD [],
        ¬ (r'.sboTerm = some "SBO:0000184" ∨ r'.sboTerm = some "SBO:0000179") ∧
        (s ∈ (r'.listOfReactants.getD []).map SpeciesRef.species ∨
          s ∈ r'.listOfModifiers.getD [])) := by
  have hone : findDownstreamOne models m = .ok st :=
    fds_all_index models models sts h i m st hm hst
  unfold findDownstreamOne at hone
  obtain ⟨hsucc, hmem⟩ := elideLoop_mem models (non_intermediates m) _ st hone
  constructor
  · rw [hmem r]
    obtain ⟨c, hc⟩ := hsucc r hr
    rw [← elideCandidate_char models (non_intermediates m) r c hc]
    constructor
    · rintro ⟨_, sp, hsp⟩
      rw [hc] at hsp
      injection hsp with hsp'
      exact ⟨sp, hsp'⟩
    · rintro ⟨sp, hsp⟩
      exact ⟨hr, sp, by rw [hc, hsp]⟩
  · intro s
    exact non_intermediates_mem m s

/-- Witness for C2 on `cartoonModel`'s translation reaction `trR1`. -/
theorem find_downstream_elidable_iff_witness :
    (trR1 ∈ cartoonElision.elidedReactions ↔
      (trR1.sboTerm = some "SBO:0000184" ∧
       (∀ l1 ∈ reactionRateLaws [cartoonModel] trR1.id,
         ∀ l2 ∈ reactionRateLaws [cartoonModel] trR1.id, l1 = l2) ∧
       ∃ s, trR1.listOfModifiers.getD [] ++
           (trR1.listOfReactants.getD []).map SpeciesRef.species = [s] ∧
         s ∉ non_intermediates cartoonModel ∧
         (((trR1.listOfProducts.getD []).map SpeciesRef.species).filter
           (fun p => p != s)).length = 1)) ∧
    (∀ s, s ∈ non_intermediates cartoonModel ↔
      ∃ r' ∈ cartoonModel.listOfReactions.getD [],
        ¬ (r'.sboTerm = some "SBO:0000184" ∨ r'.sboTerm = some "SBO:0000179") ∧
        (s ∈ (r'.listOfReactants.getD []).map SpeciesRef.species ∨
          s ∈ r'.listOfModifiers.getD [])) :=
  find_downstream_elidable_iff [cartoonModel] [cartoonElision] 0 cartoonElision
    cartoonModel trR1 rfl rfl rfl (by decide)

end SbmlDiffProof
